import Mathlib

/-!
Verification of the browser cookie extraction subsystem of src/src/lib/cookies.ts.

The TypeScript source is shallowly embedded: JavaScript strings are Lean
Strings, byte buffers are lists of Nat (one entry per byte), and JavaScript
string primitives (trim, split, toLowerCase, startsWith, endsWith, stable
sort) are modelled explicitly over the character list of a String so that
every definition is executable by the kernel.  External effects (the macOS
keychain query, PBKDF2 plus AES-CBC decryption, the sqlite subprocess, the
filesystem) are passed in as explicit parameters: a keychain result is an
Option String (none models a thrown exception, some s the captured stdout),
and the derive-plus-decrypt step is a function from the trimmed passphrase
and the ciphertext bytes to an Option String (none models any thrown
exception, some s the UTF-8 decoding of the plaintext).  Buffer reads that
can throw RangeError in Node are embedded in an Except monad so that
out-of-bounds safety is a provable statement rather than an artifact of the
embedding.
-/

/-! ## Data model (cookies.ts lines 12-24) -/

/-- Embeds interface TwitterCookies (cookies.ts lines 12-17). -/
structure TwitterCookies where
  authToken : Option String
  ct0 : Option String
  cookieHeader : Option String
  source : Option String
deriving Repr, DecidableEq

/-- Embeds interface CookieExtractionResult (cookies.ts lines 19-22). -/
structure CookieExtractionResult where
  cookies : TwitterCookies
  warnings : List String
deriving Repr, DecidableEq

/-- Embeds type CookieSource (cookies.ts line 24). -/
inductive CookieSource where
  | safari
  | chrome
  | firefox
deriving Repr, DecidableEq

/-- The all-null TwitterCookies literal each extractor starts from. -/
def emptyCookies : TwitterCookies :=
  { authToken := none, ct0 := none, cookieHeader := none, source := none }

/-! ## JavaScript string primitives, modelled over character lists -/

/-- JavaScript truthiness of a nullable string: null and the empty string
are falsy, every other string is truthy. -/
def strTruthy : Option String → Bool
  | some s => !s.data.isEmpty
  | none => false

/-- Characters removed by JavaScript String.prototype.trim (the ASCII/Latin-1
members of the WhiteSpace and LineTerminator productions; the claims only
exercise ASCII whitespace). -/
def jsWhitespace (c : Char) : Bool :=
  c.toNat == 9 || c.toNat == 10 || c.toNat == 11 || c.toNat == 12 ||
  c.toNat == 13 || c.toNat == 32 || c.toNat == 160 || c.toNat == 0xFEFF

/-- JavaScript String.prototype.trim. -/
def jsTrim (s : String) : String :=
  String.mk (((s.data.dropWhile jsWhitespace).reverse.dropWhile jsWhitespace).reverse)

/-- JavaScript String.prototype.toLowerCase restricted to ASCII (the domain
allow-list comparison only involves ASCII domain names). -/
def jsToLower (s : String) : String :=
  String.mk (s.data.map (fun c => if 'A' ≤ c && c ≤ 'Z' then Char.ofNat (c.toNat + 32) else c))

/-- JavaScript String.prototype.startsWith for a single-character pattern. -/
def jsStartsWithChar (s : String) (c : Char) : Bool :=
  match s.data with
  | [] => false
  | d :: _ => d == c

/-- JavaScript String.prototype.slice(1): drop the first character. -/
def jsDropFirst (s : String) : String :=
  String.mk s.data.tail

/-- JavaScript String.prototype.endsWith. -/
def jsEndsWith (s t : String) : Bool :=
  t.data.isSuffixOf s.data

/-- Helper for jsSplit: accumulates the current field in reverse. -/
def jsSplitAux (sep : Char) : List Char → List Char → List (List Char)
  | [], acc => [acc.reverse]
  | c :: cs, acc =>
    if c == sep then acc.reverse :: jsSplitAux sep cs []
    else jsSplitAux sep cs (c :: acc)

/-- JavaScript String.prototype.split with a single-character separator. -/
def jsSplit (s : String) (sep : Char) : List String :=
  (jsSplitAux sep s.data []).map String.mk

/-- Lexicographic comparison of character lists by code point; models the
ordering produced by localeCompare on the ASCII cookie names that occur
here (a modelling boundary: full ICU collation is not reproduced). -/
def lexLe : List Char → List Char → Bool
  | a :: as, b :: bs =>
    if a.toNat < b.toNat then true
    else if b.toNat < a.toNat then false
    else lexLe as bs
  | [], _ => true
  | _, _ => false

/-- Stable insertion of one element into a sorted list (JavaScript
Array.prototype.sort is a stable sort). -/
def insertBy (le : α → α → Bool) (x : α) : List α → List α
  | [] => [x]
  | y :: ys => if le x y then x :: y :: ys else y :: insertBy le x ys

/-- Stable sort by a boolean comparison. -/
def sortBy (le : α → α → Bool) : List α → List α
  | [] => []
  | x :: xs => insertBy le x (sortBy le xs)

/-! ## Cookie jar (a JavaScript object used as a name-to-value map) -/

/-- A cookie jar: insertion-ordered name/value pairs with unique names,
modelling the JavaScript object jar of the extractors. -/
abbrev Jar := List (String × String)

/-- Embeds the JavaScript assignment jar[name] = value: an existing key is
updated in place, a new key is appended. -/
def jarInsert (jar : Jar) (name value : String) : Jar :=
  if jar.any (fun p => p.1 == name) then
    jar.map (fun p => if p.1 == name then (name, value) else p)
  else
    jar ++ [(name, value)]

/-- Reads one key of the jar. -/
def jarLookup (jar : Jar) (name : String) : Option String :=
  (jar.find? (fun p => p.1 == name)).map (fun p => p.2)

/-- Embeds normalizeValue (cookies.ts lines 26-32): trim, then map empty to
null.  The argument is already a string or null in every call site. -/
def normalizeValue : Option String → Option String
  | some s =>
    let trimmed := jsTrim s
    if trimmed.data.length > 0 then some trimmed else none
  | none => none

/-- The sorted, filtered entry list used by serializeCookieJar
(cookies.ts lines 108-110). -/
def sortedJarEntries (jar : Jar) : Jar :=
  sortBy (fun a b => lexLe a.1.data b.1.data) (jar.filter (fun p => p.2.data.length > 0))

/-- Embeds serializeCookieJar (cookies.ts lines 107-112). -/
def serializeCookieJar (jar : Jar) : String :=
  String.intercalate "; " ((sortedJarEntries jar).map (fun p => p.1 ++ "=" ++ p.2))

/-! ## Safari binarycookies parser (cookies.ts lines 90-188)

Byte buffers are lists of Nat.  Node Buffer.readUInt32LE / readUInt32BE
throw a RangeError when fewer than four bytes are available at the offset;
this possibility is kept in an Except monad so that the absence of
out-of-bounds accesses is provable. -/

/-- Reads byte i of a buffer (Node Buffer indexing yields undefined out of
bounds; all embedded reads are bounds-checked before use). -/
def byteAt (buf : List Nat) (i : Nat) : Nat := buf.getD i 0

/-- Embeds Buffer.readUInt32LE, including its RangeError on out-of-bounds. -/
def readU32LE (buf : List Nat) (off : Nat) : Except String Nat :=
  if off + 4 ≤ buf.length then
    .ok (byteAt buf off + byteAt buf (off + 1) * 256 +
         byteAt buf (off + 2) * 65536 + byteAt buf (off + 3) * 16777216)
  else .error "RangeError: attempt to access memory outside buffer bounds"

/-- Embeds Buffer.readUInt32BE, including its RangeError on out-of-bounds. -/
def readU32BE (buf : List Nat) (off : Nat) : Except String Nat :=
  if off + 4 ≤ buf.length then
    .ok (byteAt buf off * 16777216 + byteAt buf (off + 1) * 65536 +
         byteAt buf (off + 2) * 256 + byteAt buf (off + 3))
  else .error "RangeError: attempt to access memory outside buffer bounds"

/-- Fuel-driven worker for utf8Decode; every step consumes at least one
byte, so fuel equal to the buffer length never runs out. -/
def utf8DecodeAux : Nat → List Nat → List Char
  | 0, _ => []
  | _, [] => []
  | fuel + 1, b :: rest =>
    if b < 0x80 then Char.ofNat b :: utf8DecodeAux fuel rest
    else if 0xC2 ≤ b && b ≤ 0xDF then
      match rest with
      | [] => [Char.ofNat 0xFFFD]
      | b2 :: rest2 =>
        if 0x80 ≤ b2 && b2 ≤ 0xBF then
          Char.ofNat ((b - 0xC0) * 0x40 + (b2 - 0x80)) :: utf8DecodeAux fuel rest2
        else Char.ofNat 0xFFFD :: utf8DecodeAux fuel rest
    else if 0xE0 ≤ b && b ≤ 0xEF then
      match rest with
      | b2 :: b3 :: rest3 =>
        if (0x80 ≤ b2 && b2 ≤ 0xBF) && (0x80 ≤ b3 && b3 ≤ 0xBF) &&
           !(b == 0xE0 && b2 < 0xA0) && !(b == 0xED && 0xA0 ≤ b2) then
          Char.ofNat ((b - 0xE0) * 0x1000 + (b2 - 0x80) * 0x40 + (b3 - 0x80)) ::
            utf8DecodeAux fuel rest3
        else Char.ofNat 0xFFFD :: utf8DecodeAux fuel rest
      | _ => Char.ofNat 0xFFFD :: utf8DecodeAux fuel rest
    else if 0xF0 ≤ b && b ≤ 0xF4 then
      match rest with
      | b2 :: b3 :: b4 :: rest4 =>
        if (0x80 ≤ b2 && b2 ≤ 0xBF) && (0x80 ≤ b3 && b3 ≤ 0xBF) && (0x80 ≤ b4 && b4 ≤ 0xBF) &&
           !(b == 0xF0 && b2 < 0x90) && !(b == 0xF4 && 0x90 ≤ b2) then
          Char.ofNat ((b - 0xF0) * 0x40000 + (b2 - 0x80) * 0x1000 +
                      (b3 - 0x80) * 0x40 + (b4 - 0x80)) :: utf8DecodeAux fuel rest4
        else Char.ofNat 0xFFFD :: utf8DecodeAux fuel rest
      | _ => Char.ofNat 0xFFFD :: utf8DecodeAux fuel rest
    else Char.ofNat 0xFFFD :: utf8DecodeAux fuel rest

/-- Decodes UTF-8 bytes to characters, as Buffer.toString with utf8 does.
Well-formed sequences decode exactly; malformed bytes map to U+FFFD (the
replacement policy on malformed input is a modelling boundary — every
buffer exercised by a concrete claim input is plain ASCII). -/
def utf8Decode (l : List Nat) : List Char :=
  utf8DecodeAux l.length l

/-! ## Safari parser proper -/

/-- The allow-listed cookie domains (cookies.ts line 90). -/
def SAFARI_COOKIE_DOMAINS : List String := ["x.com", "twitter.com"]

/-- The little-endian page signature bytes (cookies.ts line 91). -/
def SAFARI_PAGE_SIGNATURE : List Nat := [0x00, 0x00, 0x01, 0x00]

/-- Embeds matchesSafariDomain (cookies.ts lines 93-97). -/
def matchesSafariDomain : Option String → Bool
  | none => false
  | some d =>
    if d.data.isEmpty then false
    else
      let normalized := jsToLower (if jsStartsWithChar d '.' then jsDropFirst d else d)
      SAFARI_COOKIE_DOMAINS.any (fun target =>
        normalized == target || jsEndsWith normalized ("." ++ target))

/-- Embeds readSafariCString (cookies.ts lines 99-105): scan from start for
a NUL byte strictly before stop; absent terminator means absent field. -/
def readSafariCString (buf : List Nat) (start stop : Nat) : Option String :=
  if start < stop then
    let seg := (buf.drop start).take (stop - start)
    match seg.findIdx? (fun b => b == 0) with
    | some i => some (String.mk (utf8Decode (seg.take i)))
    | none => none
  else none

/-- The value-extraction core of parseSafariCookieRecord (cookies.ts lines
114-142): returns ok none when the record is skipped, and ok (some (name,
value)) when a cookie is emitted into the jar, where value has already been
normalized.  The record mutation of jar and cookies is applied by
parseSafariCookieRecord below. -/
def safariRecordTriple (page : List Nat) (offset : Nat) :
    Except String (Option (String × String)) :=
  if offset + 4 > page.length then .ok none else
  match readU32LE page offset with
  | .error e => .error e
  | .ok recordSize =>
    let recordEnd := offset + recordSize
    if recordSize = 0 ∨ recordEnd > page.length then .ok none else
    let headerStart := offset + 4
    if headerStart + 28 > recordEnd then .ok none else
    match readU32LE page (headerStart + 12) with
    | .error e => .error e
    | .ok domainOffset =>
      match readU32LE page (headerStart + 16) with
      | .error e => .error e
      | .ok nameOffset =>
        match readU32LE page (headerStart + 24) with
        | .error e => .error e
        | .ok valueOffset =>
          let domain := readSafariCString page (offset + domainOffset) recordEnd
          let name := readSafariCString page (offset + nameOffset) recordEnd
          let value := readSafariCString page (offset + valueOffset) recordEnd
          if !strTruthy name || !strTruthy value || !matchesSafariDomain domain then
            .ok none
          else
            match normalizeValue value with
            | none => .ok none
            | some v => .ok (some (name.getD "", v))

/-- Embeds the credential-slot population shared by all extractors
(cookies.ts lines 144-148, 359-363, 437-441): first match wins. -/
def tokenUpdate (ck : TwitterCookies) (n v : String) : TwitterCookies :=
  if n == "auth_token" && !strTruthy ck.authToken then { ck with authToken := some v }
  else if n == "ct0" && !strTruthy ck.ct0 then { ck with ct0 := some v }
  else ck

/-- Embeds parseSafariCookieRecord (cookies.ts lines 114-149) as a state
transformer on (jar, cookies). -/
def parseSafariCookieRecord (page : List Nat) (offset : Nat) (st : Jar × TwitterCookies) :
    Except String (Jar × TwitterCookies) :=
  match safariRecordTriple page offset with
  | .error e => .error e
  | .ok none => .ok st
  | .ok (some (n, v)) => .ok (jarInsert st.1 n v, tokenUpdate st.2 n v)

/-- Folds parseSafariCookieRecord over the collected record offsets
(cookies.ts lines 165-167). -/
def parseSafariRecords (page : List Nat) : List Nat → Jar × TwitterCookies →
    Except String (Jar × TwitterCookies)
  | [], st => .ok st
  | off :: offs, st =>
    match parseSafariCookieRecord page off st with
    | .error e => .error e
    | .ok st1 => parseSafariRecords page offs st1

/-- Embeds the offset-collection loop of parseSafariCookiePage (cookies.ts
lines 157-163): ok none models the early return on a truncated offset
table. -/
def readPageOffsets (page : List Nat) : Nat → Nat → Except String (Option (List Nat))
  | _, 0 => .ok (some [])
  | cursor, n + 1 =>
    if cursor + 4 > page.length then .ok none else
    match readU32LE page cursor with
    | .error e => .error e
    | .ok v =>
      match readPageOffsets page (cursor + 4) n with
      | .error e => .error e
      | .ok none => .ok none
      | .ok (some rest) => .ok (some (v :: rest))

/-- Embeds parseSafariCookiePage (cookies.ts lines 151-168). -/
def parseSafariCookiePage (page : List Nat) (st : Jar × TwitterCookies) :
    Except String (Jar × TwitterCookies) :=
  if page.length < 12 then .ok st else
  if page.take 4 ≠ SAFARI_PAGE_SIGNATURE then .ok st else
  match readU32LE page 4 with
  | .error e => .error e
  | .ok cookieCount =>
    if cookieCount = 0 then .ok st else
    match readPageOffsets page 8 cookieCount with
    | .error e => .error e
    | .ok none => .ok st
    | .ok (some offsets) => parseSafariRecords page offsets st

/-- Embeds the page-size-collection loop of parseSafariCookies (cookies.ts
lines 175-180): ok none models the early return on a truncated size
table. -/
def readPageSizes (data : List Nat) : Nat → Nat → Except String (Option (List Nat))
  | _, 0 => .ok (some [])
  | cursor, n + 1 =>
    if cursor + 4 > data.length then .ok none else
    match readU32BE data cursor with
    | .error e => .error e
    | .ok v =>
      match readPageSizes data (cursor + 4) n with
      | .error e => .error e
      | .ok none => .ok none
      | .ok (some rest) => .ok (some (v :: rest))

/-- Embeds the page iteration of parseSafariCookies (cookies.ts lines
182-187). -/
def parseSafariPages (data : List Nat) : Nat → List Nat → Jar × TwitterCookies →
    Except String (Jar × TwitterCookies)
  | _, [], st => .ok st
  | cursor, ps :: rest, st =>
    if cursor + ps > data.length then .ok st else
    match parseSafariCookiePage ((data.drop cursor).take ps) st with
    | .error e => .error e
    | .ok st1 => parseSafariPages data (cursor + ps) rest st1

/-- Embeds parseSafariCookies (cookies.ts lines 170-188). -/
def parseSafariCookies (data : List Nat) (st : Jar × TwitterCookies) :
    Except String (Jar × TwitterCookies) :=
  if data.length < 8 then .ok st else
  if String.mk (utf8Decode (data.take 4)) ≠ "cook" then .ok st else
  match readU32BE data 4 with
  | .error e => .error e
  | .ok pageCount =>
    match readPageSizes data 8 pageCount with
    | .error e => .error e
    | .ok none => .ok st
    | .ok (some sizes) => parseSafariPages data (8 + 4 * pageCount) sizes st

/-- Embeds the shared post-scan block of every extractor (cookies.ts lines
217-223, 368-374, 445-451): set cookieHeader when the jar is non-empty,
then stamp the source label when at least one credential was found. -/
def finalizeCookies (label : String) (st : Jar × TwitterCookies) : TwitterCookies :=
  let ck := if st.1.length > 0 then { st.2 with cookieHeader := some (serializeCookieJar st.1) }
            else st.2
  if strTruthy ck.authToken || strTruthy ck.ct0 then { ck with source := some label }
  else ck

/-- The pure core of extractCookiesFromSafari (cookies.ts lines 193-242)
applied to the bytes of the copied Cookies.binarycookies file. -/
def extractSafariFromData (data : List Nat) : Except String TwitterCookies :=
  match parseSafariCookies data ([], emptyCookies) with
  | .error e => .error e
  | .ok st => .ok (finalizeCookies "Safari" st)

/-! ## Chrome value decryptor (cookies.ts lines 248-301) -/

/-- Value of one hex digit, if the character is one (Buffer.from with hex
accepts both cases). -/
def hexDigitVal (c : Char) : Option Nat :=
  let n := c.toNat
  if 48 ≤ n && n ≤ 57 then some (n - 48)
  else if 97 ≤ n && n ≤ 102 then some (n - 87)
  else if 65 ≤ n && n ≤ 70 then some (n - 55)
  else none

/-- Embeds Buffer.from(hex, "hex"): decodes full hex-digit pairs and stops
at the first invalid or incomplete pair. -/
def hexDecode : List Char → List Nat
  | c1 :: c2 :: rest =>
    match hexDigitVal c1, hexDigitVal c2 with
    | some hi, some lo => (hi * 16 + lo) :: hexDecode rest
    | _, _ => []
  | _ => []

/-- The character class of the recovery regex [a-f0-9] with the i flag
(cookies.ts line 292): hex digits of either case. -/
def isHexChar (c : Char) : Bool :=
  let n := c.toNat
  (48 ≤ n && n ≤ 57) || (97 ≤ n && n ≤ 102) || (65 ≤ n && n ≤ 70)

/-- Printable ASCII, the class kept by the fallback replace
(cookies.ts line 297). -/
def isPrintableAscii (c : Char) : Bool :=
  0x20 ≤ c.toNat && c.toNat ≤ 0x7E

/-- Fuel-driven worker for firstHexRun; every recursion consumes at least
one character, so fuel equal to the text length never runs out. -/
def firstHexRunAux : Nat → List Char → Option (List Char)
  | 0, _ => none
  | _, [] => none
  | fuel + 1, c :: cs =>
    if isHexChar c then
      if 32 ≤ (c :: cs.takeWhile isHexChar).length then some (c :: cs.takeWhile isHexChar)
      else firstHexRunAux fuel (cs.dropWhile isHexChar)
    else firstHexRunAux fuel cs

/-- Embeds decryptedStr.match(/[a-f0-9]{32,}/i) (cookies.ts line 292):
JavaScript match with a non-global regex returns the leftmost match, and
the greedy quantifier extends it to the end of the contiguous hex run, so
the result is the first maximal run of at least 32 hex characters. -/
def firstHexRun (l : List Char) : Option (List Char) :=
  firstHexRunAux l.length l

/-- Embeds the post-decryption recovery heuristic (cookies.ts lines
291-297). -/
def recoverDecrypted (s : String) : String :=
  match firstHexRun s.data with
  | some run => String.mk run
  | none => String.mk (s.data.filter isPrintableAscii)

/-- Embeds decryptCookieValue (cookies.ts lines 248-301).
chromeSafeStorageKey is the outcome of the execSync keychain query (none
models a thrown exception; the shell appends an empty fallback echo, so a
missing keychain entry surfaces as some of a whitespace string).
aesDecrypt models pbkdf2Sync plus AES-128-CBC decryption plus UTF-8
decoding of the plaintext, applied to the trimmed passphrase and the
ciphertext bytes; none models any exception in that block.  The catch-all
maps every modelled exception to none. -/
def decryptCookieValue (chromeSafeStorageKey : Option String)
    (aesDecrypt : String → List Nat → Option String) (encryptedHex : String) : Option String :=
  let encryptedValue := hexDecode encryptedHex.data
  if encryptedValue.length < 4 then none
  else
    let version := String.mk (utf8Decode (encryptedValue.take 3))
    if version ≠ "v10" ∧ version ≠ "v11" then
      some (String.mk (utf8Decode encryptedValue))
    else
      match chromeSafeStorageKey with
      | none => none
      | some out =>
        let keyOutput := jsTrim out
        if keyOutput.data.isEmpty then none
        else
          match aesDecrypt keyOutput (encryptedValue.drop 3) with
          | none => none
          | some decryptedStr => some (recoverDecrypted decryptedStr)

/-! ## Chrome and Firefox row scans (cookies.ts lines 351-365, 432-443) -/

/-- Embeds one iteration of the Chrome row loop (cookies.ts lines 352-365):
split the sqlite output line on the separator, skip falsy fields, decrypt,
and on a truthy decrypted value update jar and credential slots. -/
def chromeLine (dec : String → Option String) (st : Jar × TwitterCookies) (line : String) :
    Jar × TwitterCookies :=
  match jsSplit line '|' with
  | name :: encryptedHex :: _ =>
    if name.data.isEmpty || encryptedHex.data.isEmpty then st
    else
      match dec encryptedHex with
      | some v => if v.data.isEmpty then st else (jarInsert st.1 name v, tokenUpdate st.2 name v)
      | none => st
  | _ => st

/-- Embeds the whole Chrome row loop as a fold over the output lines. -/
def scanChromeLines (dec : String → Option String) (lines : List String) :
    Jar × TwitterCookies :=
  lines.foldl (chromeLine dec) ([], emptyCookies)

/-- Embeds one iteration of the Firefox row loop (cookies.ts lines
433-442): values are plaintext, no decryption step. -/
def firefoxLine (st : Jar × TwitterCookies) (line : String) : Jar × TwitterCookies :=
  match jsSplit line '|' with
  | name :: value :: _ =>
    if name.data.isEmpty || value.data.isEmpty then st
    else (jarInsert st.1 name value, tokenUpdate st.2 name value)
  | _ => st

/-- Embeds the whole Firefox row loop as a fold over the output lines. -/
def scanFirefoxLines (lines : List String) : Jar × TwitterCookies :=
  lines.foldl firefoxLine ([], emptyCookies)

/-- Source label of extractCookiesFromChrome (cookies.ts line 373). -/
def chromeSourceLabel : Option String → String
  | some p => "Chrome profile \"" ++ p ++ "\""
  | none => "Chrome default profile"

/-- Source label of extractCookiesFromFirefox (cookies.ts line 450). -/
def firefoxSourceLabel : Option String → String
  | some p => "Firefox profile \"" ++ p ++ "\""
  | none => "Firefox default profile"

/-- The pure core of extractCookiesFromChrome (cookies.ts lines 307-394)
applied to the sqlite output lines, with decryption abstracted by dec. -/
def extractChromeFromLines (dec : String → Option String) (lines : List String)
    (profile : Option String) : TwitterCookies :=
  finalizeCookies (chromeSourceLabel profile) (scanChromeLines dec lines)

/-- The pure core of extractCookiesFromFirefox (cookies.ts lines 400-472)
applied to the sqlite output lines. -/
def extractFirefoxFromLines (lines : List String) (profile : Option String) : TwitterCookies :=
  finalizeCookies (firefoxSourceLabel profile) (scanFirefoxLines lines)

/-! ## Credential resolver (cookies.ts lines 478-585) -/

/-- The option bag of resolveCredentials (cookies.ts lines 478-484).  The
single-source and array forms of cookieSource are both modelled as a list;
none models an absent option (the default cascade).  The browser profile
options are folded into the extractor oracle of resolveCredentials. -/
structure ResolveOptions where
  authToken : Option String := none
  ct0 : Option String := none
  cookieSource : Option (List CookieSource) := none
deriving Repr, DecidableEq

/-- The candidate environment variable names for auth_token
(cookies.ts line 506). -/
def envAuthKeys : List String := ["AUTH_TOKEN", "TWITTER_AUTH_TOKEN"]

/-- The candidate environment variable names for ct0 (cookies.ts line 507). -/
def envCt0Keys : List String := ["CT0", "TWITTER_CT0"]

/-- Embeds one env scan loop (cookies.ts lines 510-517 and 521-528): the
first key whose normalized value is non-null wins, together with its key. -/
def envLookup (env : String → Option String) : List String → Option (String × String)
  | [] => none
  | k :: ks =>
    match normalizeValue (env k) with
    | some v => some (k, v)
    | none => envLookup env ks

/-- Embeds steps 1 and 2 of resolveCredentials (cookies.ts lines 486-529):
explicit arguments, then environment variables for each unfilled field.
Note the asymmetry of the source stamping, exactly as in the source: the
auth_token env branch overwrites cookies.source unconditionally (line 514)
while the ct0 branches set it only when it is still unset (lines 502, 525). -/
def preCascadeCookies (env : String → Option String) (opts : ResolveOptions) : TwitterCookies :=
  let c1 := if strTruthy opts.authToken then
      { emptyCookies with authToken := opts.authToken, source := some "CLI argument" }
    else emptyCookies
  let src2 := if strTruthy c1.source then c1.source else some "CLI argument"
  let c2 := if strTruthy opts.ct0 then { c1 with ct0 := opts.ct0, source := src2 } else c1
  let c3 := if strTruthy c2.authToken then c2
    else
      match envLookup env envAuthKeys with
      | some kv => { c2 with authToken := some kv.2, source := some ("env " ++ kv.1) }
      | none => c2
  if strTruthy c3.ct0 then c3
  else
    match envLookup env envCt0Keys with
    | some kv =>
      let src4 := if strTruthy c3.source then c3.source else some ("env " ++ kv.1)
      { c3 with ct0 := some kv.2, source := src4 }
    | none => c3

/-- True when both credential fields are truthy, the completion test of
resolveCredentials (cookies.ts lines 531, 546, 555, 564, 580). -/
def hasBothTokens (ck : TwitterCookies) : Bool :=
  strTruthy ck.authToken && strTruthy ck.ct0

/-- Embeds the template literal composing the cookie header from the two
token fields (cookies.ts lines 532 and 581). -/
def composeArgHeader (ck : TwitterCookies) : String :=
  "auth_token=" ++ ck.authToken.getD "" ++ "; ct0=" ++ ck.ct0.getD ""

/-- Embeds the sourcesToTry computation (cookies.ts lines 536-540). -/
def sourcesToTry : Option (List CookieSource) → List CookieSource
  | none => [CookieSource.safari, CookieSource.chrome, CookieSource.firefox]
  | some l => l

/-- Warning pushed when auth_token is still missing (cookies.ts lines
572-574). -/
def missingAuthTokenWarning : String :=
  "Missing auth_token - provide via --auth-token, AUTH_TOKEN env var, or login to x.com in Safari/Chrome/Firefox"

/-- Warning pushed when ct0 is still missing (cookies.ts line 577). -/
def missingCt0Warning : String :=
  "Missing ct0 - provide via --ct0, CT0 env var, or login to x.com in Safari/Chrome/Firefox"

/-- Embeds the browser cascade (cookies.ts lines 542-568).  f yields the
extraction result of each browser source (the real code awaits the three
extractors; their profile arguments are fixed by the options, so the
oracle is a function of the source alone).  Returns the cookies of the
first complete source, if any, plus the warnings accumulated from every
source attempted up to and including it. -/
def cascade (f : CookieSource → CookieExtractionResult) :
    List CookieSource → Option TwitterCookies × List String
  | [] => (none, [])
  | s :: rest =>
    let r := f s
    if hasBothTokens r.cookies then (some r.cookies, r.warnings)
    else
      let next := cascade f rest
      (next.1, r.warnings ++ next.2)

/-- Embeds resolveCredentials (cookies.ts lines 478-585), with the process
environment and the three browser extractors abstracted as env and f. -/
def resolveCredentials (env : String → Option String)
    (f : CookieSource → CookieExtractionResult) (opts : ResolveOptions) :
    CookieExtractionResult :=
  let c := preCascadeCookies env opts
  if hasBothTokens c then
    { cookies := { c with cookieHeader := some (composeArgHeader c) }, warnings := [] }
  else
    match cascade f (sourcesToTry opts.cookieSource) with
    | (some found, ws) => { cookies := found, warnings := ws }
    | (none, ws) =>
      let ws1 := if strTruthy c.authToken then ws else ws ++ [missingAuthTokenWarning]
      let ws2 := if strTruthy c.ct0 then ws1 else ws1 ++ [missingCt0Warning]
      let c2 := if hasBothTokens c then { c with cookieHeader := some (composeArgHeader c) }
                else c
      { cookies := c2, warnings := ws2 }

/-! ## Helper lemmas on lists -/

/-- dropWhile never lengthens a list. -/
theorem dropWhileLengthLe (p : α → Bool) : ∀ l : List α, (l.dropWhile p).length ≤ l.length
  | [] => Nat.le_refl _
  | a :: l => by
    rw [List.dropWhile_cons]
    split
    · exact Nat.le_succ_of_le (dropWhileLengthLe p l)
    · exact Nat.le_refl _

/-- The head surviving dropWhile fails the predicate. -/
theorem headDropWhileFalse (p : α → Bool) :
    ∀ l : List α, ∀ c, (l.dropWhile p).head? = some c → p c = false := by
  intro l
  induction l with
  | nil => intro c h; simp at h
  | cons a l ih =>
    intro c h
    rw [List.dropWhile_cons] at h
    by_cases ha : p a
    · simp only [ha, if_true] at h
      exact ih c h
    · rw [if_neg (by simp [ha])] at h
      simp only [List.head?_cons, Option.some.injEq] at h
      subst h
      exact Bool.eq_false_iff.mpr ha

/-- takeWhile of a list whose head fails the predicate is empty. -/
theorem takeWhileNilOfHead (p : α → Bool) (l : List α)
    (h : ∀ c, l.head? = some c → p c = false) : l.takeWhile p = [] := by
  cases l with
  | nil => rfl
  | cons a l => simp [List.takeWhile_cons, h a rfl]

/-- dropWhile of a list whose head fails the predicate is the list itself. -/
theorem dropWhileIdOfHead (p : α → Bool) (l : List α)
    (h : ∀ c, l.head? = some c → p c = false) : l.dropWhile p = l := by
  cases l with
  | nil => rfl
  | cons a l => simp [List.dropWhile_cons, h a rfl]

/-- takeWhile distributes over an append whose left part wholly satisfies
the predicate. -/
theorem takeWhileAllAppend (p : α → Bool) :
    ∀ a b : List α, (∀ c ∈ a, p c = true) → (a ++ b).takeWhile p = a ++ b.takeWhile p := by
  intro a
  induction a with
  | nil => intro b _; rfl
  | cons x xs ih =>
    intro b h
    rw [List.cons_append, List.takeWhile_cons, h x (List.mem_cons_self x xs)]
    simp only [if_true, List.cons_append, List.cons.injEq, true_and]
    exact ih b (fun c hc => h c (List.mem_cons_of_mem x hc))

/-- dropWhile skips an append prefix that wholly satisfies the predicate. -/
theorem dropWhileAllAppend (p : α → Bool) :
    ∀ a b : List α, (∀ c ∈ a, p c = true) → (a ++ b).dropWhile p = b.dropWhile p := by
  intro a
  induction a with
  | nil => intro b _; rfl
  | cons x xs ih =>
    intro b h
    rw [List.cons_append, List.dropWhile_cons, h x (List.mem_cons_self x xs)]
    simp only [if_true]
    exact ih b (fun c hc => h c (List.mem_cons_of_mem x hc))

/-! ## Formalization helpers for the hex-run recovery heuristic (claim C3) -/

/-- Length of the longest contiguous run of isHexChar characters in a
text; the measure a longest-run heuristic would maximize. -/
def maxHexRun : List Char → Nat
  | [] => 0
  | c :: cs =>
    if isHexChar c then
      max (1 + (cs.takeWhile isHexChar).length) (maxHexRun (cs.dropWhile isHexChar))
    else maxHexRun cs
termination_by l => l.length
decreasing_by
  · exact Nat.lt_succ_of_le (dropWhileLengthLe _ _)
  · simp

/-- Characterizes the run the embedded regex match returns: r is a
contiguous all-hex run of length at least 32, maximal on both sides, and
no earlier run of length 32 exists (the text before it has maxHexRun
below 32), i.e. r is the leftmost maximal qualifying run. -/
def IsFirstHexRun (l r : List Char) : Prop :=
  ∃ p t, l = p ++ r ++ t ∧ r ≠ [] ∧ (∀ c ∈ r, isHexChar c = true) ∧ 32 ≤ r.length ∧
    (∀ c, p.getLast? = some c → isHexChar c = false) ∧
    (∀ c, t.head? = some c → isHexChar c = false) ∧
    maxHexRun p < 32

/-- maxHexRun of an all-hex block followed by a non-hex boundary splits as
a maximum. -/
theorem maxHexRunRunAppend (a b : List Char) (hne : a ≠ [])
    (ha : ∀ c ∈ a, isHexChar c = true)
    (hb : ∀ c, b.head? = some c → isHexChar c = false) :
    maxHexRun (a ++ b) = max a.length (maxHexRun b) := by
  cases a with
  | nil => exact absurd rfl hne
  | cons c a2 =>
    rw [List.cons_append, maxHexRun]
    rw [if_pos (ha c (List.mem_cons_self c a2))]
    rw [takeWhileAllAppend _ a2 b (fun x hx => ha x (List.mem_cons_of_mem c hx))]
    rw [dropWhileAllAppend _ a2 b (fun x hx => ha x (List.mem_cons_of_mem c hx))]
    rw [takeWhileNilOfHead _ b hb, dropWhileIdOfHead _ b hb]
    simp only [List.append_nil, List.length_append, List.length_cons]
    omega

/-- The embedded regex search, when it finds a run, finds the leftmost
maximal run of at least 32 hex characters. -/
theorem firstHexRunAuxSome :
    ∀ fuel l r, l.length ≤ fuel → firstHexRunAux fuel l = some r → IsFirstHexRun l r := by
  intro fuel
  induction fuel with
  | zero =>
    intro l r _ h
    simp [firstHexRunAux] at h
  | succ fuel ih =>
    intro l r hlen h
    cases l with
    | nil => simp [firstHexRunAux] at h
    | cons c cs =>
      have hcs : cs.length ≤ fuel := by
        simp only [List.length_cons] at hlen
        omega
      rw [firstHexRunAux] at h
      by_cases hc : isHexChar c
      · rw [if_pos hc] at h
        by_cases h32 : 32 ≤ (c :: cs.takeWhile isHexChar).length
        · rw [if_pos h32] at h
          have hr : r = c :: cs.takeWhile isHexChar := (Option.some.injEq _ _).mp h.symm
          subst hr
          refine ⟨[], cs.dropWhile isHexChar, ?_, List.cons_ne_nil _ _, ?_, h32, ?_, ?_, ?_⟩
          · simp [List.takeWhile_append_dropWhile]
          · intro x hx
            rcases List.mem_cons.mp hx with hx | hx
            · subst hx; exact hc
            · exact List.mem_takeWhile_imp hx
          · intro c' hc'
            simp at hc'
          · exact headDropWhileFalse _ _
          · simp [maxHexRun]
        · rw [if_neg h32] at h
          have hlen2 : (cs.dropWhile isHexChar).length ≤ fuel :=
            le_trans (dropWhileLengthLe _ _) hcs
          obtain ⟨p2, t, hdec, hrne, hrhex, hr32, hplast, hthead, hpmax⟩ := ih _ r hlen2 h
          have hp2ne : p2 ≠ [] := by
            intro hp2
            subst hp2
            simp only [List.nil_append] at hdec
            cases r with
            | nil => exact hrne rfl
            | cons r0 r' =>
              have hh : (cs.dropWhile isHexChar).head? = some r0 := by
                rw [hdec]; simp
              have := headDropWhileFalse isHexChar cs r0 hh
              rw [hrhex r0 (List.mem_cons_self r0 r')] at this
              simp at this
          have hp2head : ∀ c', p2.head? = some c' → isHexChar c' = false := by
            intro c' h'
            have hh : (cs.dropWhile isHexChar).head? = some c' := by
              rw [hdec]
              rcases List.exists_cons_of_ne_nil hp2ne with ⟨y, ys, hy⟩
              subst hy
              simp only [List.head?_cons] at h' ⊢
              simpa using h'
            exact headDropWhileFalse isHexChar cs c' hh
          refine ⟨(c :: cs.takeWhile isHexChar) ++ p2, t, ?_, hrne, hrhex, hr32, ?_, hthead, ?_⟩
          · have : c :: cs = (c :: cs.takeWhile isHexChar) ++ cs.dropWhile isHexChar := by
              simp [List.takeWhile_append_dropWhile]
            rw [this, hdec]
            simp
          · intro c' hc'
            rw [List.getLast?_append] at hc'
            rcases List.exists_cons_of_ne_nil hp2ne with ⟨y, ys, hy⟩
            have hsome : p2.getLast?.isSome := by
              subst hy
              simp [List.getLast?_isSome]
            rcases Option.isSome_iff_exists.mp hsome with ⟨z, hz⟩
            rw [hz] at hc'
            simp only [Option.or_some, Option.some.injEq] at hc'
            subst hc'
            exact hplast z hz
          · have hrw : maxHexRun ((c :: cs.takeWhile isHexChar) ++ p2) =
                max (c :: cs.takeWhile isHexChar).length (maxHexRun p2) := by
              refine maxHexRunRunAppend _ _ (List.cons_ne_nil _ _) ?_ hp2head
              intro x hx
              rcases List.mem_cons.mp hx with hx | hx
              · subst hx; exact hc
              · exact List.mem_takeWhile_imp hx
            rw [hrw]
            have : (c :: cs.takeWhile isHexChar).length < 32 := Nat.lt_of_not_le h32
            omega
      · rw [if_neg hc] at h
        obtain ⟨p2, t, hdec, hrne, hrhex, hr32, hplast, hthead, hpmax⟩ := ih _ r hcs h
        refine ⟨c :: p2, t, ?_, hrne, hrhex, hr32, ?_, hthead, ?_⟩
        · rw [hdec]; simp
        · intro c' hc'
          cases p2 with
          | nil =>
            simp only [List.getLast?_singleton, Option.some.injEq] at hc'
            subst hc'
            exact Bool.eq_false_iff.mpr hc
          | cons y ys =>
            rw [List.getLast?_cons_cons] at hc'
            exact hplast c' hc'
        · have : maxHexRun (c :: p2) = maxHexRun p2 := by
            rw [maxHexRun, if_neg hc]
          rw [this]
          exact hpmax

/-- When the embedded regex search finds nothing, no run of 32 hex
characters exists anywhere in the text. -/
theorem firstHexRunAuxNone :
    ∀ fuel l, l.length ≤ fuel → firstHexRunAux fuel l = none → maxHexRun l < 32 := by
  intro fuel
  induction fuel with
  | zero =>
    intro l hlen _
    have : l = [] := List.eq_nil_of_length_eq_zero (Nat.le_zero.mp hlen)
    subst this
    simp [maxHexRun]
  | succ fuel ih =>
    intro l hlen h
    cases l with
    | nil => simp [maxHexRun]
    | cons c cs =>
      have hcs : cs.length ≤ fuel := by
        simp only [List.length_cons] at hlen
        omega
      rw [firstHexRunAux] at h
      by_cases hc : isHexChar c
      · rw [if_pos hc] at h
        by_cases h32 : 32 ≤ (c :: cs.takeWhile isHexChar).length
        · rw [if_pos h32] at h
          exact absurd h (by simp)
        · rw [if_neg h32] at h
          have h1 := ih _ (le_trans (dropWhileLengthLe _ _) hcs) h
          rw [maxHexRun, if_pos hc]
          simp only [List.length_cons] at h32
          omega
      · rw [if_neg hc] at h
        rw [maxHexRun, if_neg hc]
        exact ih _ hcs h

/-- Wrapper of firstHexRunAuxSome at the real fuel. -/
theorem firstHexRunSome (l : List Char) (r : List Char) :
    firstHexRun l = some r → IsFirstHexRun l r :=
  firstHexRunAuxSome l.length l r (Nat.le_refl _)

/-- Wrapper of firstHexRunAuxNone at the real fuel. -/
theorem firstHexRunNone (l : List Char) :
    firstHexRun l = none → maxHexRun l < 32 :=
  firstHexRunAuxNone l.length l (Nat.le_refl _)

/-- Helper: on the v10/v11 success path, decryptCookieValue returns the
recovery heuristic applied to the decrypted text. -/
theorem decryptSuccessPath (aes : String → List Nat → Option String)
    (hex out D : String)
    (hlen : 4 ≤ (hexDecode hex.data).length)
    (hver : String.mk (utf8Decode ((hexDecode hex.data).take 3)) = "v10" ∨
            String.mk (utf8Decode ((hexDecode hex.data).take 3)) = "v11")
    (hkey : (jsTrim out).data.isEmpty = false)
    (haes : aes (jsTrim out) ((hexDecode hex.data).drop 3) = some D) :
    decryptCookieValue (some out) aes hex = some (recoverDecrypted D) := by
  have h4 : ¬ (hexDecode hex.data).length < 4 := by omega
  have hv : ¬ (String.mk (utf8Decode ((hexDecode hex.data).take 3)) ≠ "v10" ∧
               String.mk (utf8Decode ((hexDecode hex.data).take 3)) ≠ "v11") := by
    rcases hver with hver | hver <;> simp [hver]
  simp only [decryptCookieValue]
  rw [if_neg h4, if_neg hv]
  simp only [hkey, Bool.false_eq_true, if_false, haes]

/-- C3: the claim prescribes the longest run of at least 32 lowercase hex
characters; the code's regex match returns the first (leftmost) maximal
run of at least 32 hex characters of either case.  Concretely: the
decrypted text is a run of 32 a-characters, a z, then a run of 40
b-characters; the decryptor returns the 32-character run even though an
all-lowercase-hex run of length 40 exists later, so the returned value is
not the longest such run. -/
theorem c3_counterexample :
    decryptCookieValue (some "k")
      (fun _ _ => some "aaaaaaaaaaaaaaaaaaaaaaaaaaaaaaaazbbbbbbbbbbbbbbbbbbbbbbbbbbbbbbbbbbbbbbbb")
      "76313000" = some "aaaaaaaaaaaaaaaaaaaaaaaaaaaaaaaa" ∧
    ("aaaaaaaaaaaaaaaaaaaaaaaaaaaaaaaazbbbbbbbbbbbbbbbbbbbbbbbbbbbbbbbbbbbbbbbb" : String).data =
      ("aaaaaaaaaaaaaaaaaaaaaaaaaaaaaaaaz" : String).data ++
      ("bbbbbbbbbbbbbbbbbbbbbbbbbbbbbbbbbbbbbbbb" : String).data ∧
    (∀ c ∈ ("bbbbbbbbbbbbbbbbbbbbbbbbbbbbbbbbbbbbbbbb" : String).data,
      isHexChar c = true ∧ 'a' ≤ c ∧ c ≤ 'f') ∧
    ("bbbbbbbbbbbbbbbbbbbbbbbbbbbbbbbbbbbbbbbb" : String).length = 40 ∧
    ("aaaaaaaaaaaaaaaaaaaaaaaaaaaaaaaa" : String).length = 32 := by
  refine ⟨?_, by decide, by decide, by decide, by decide⟩
  decide

/-- C3 (amended): for every v10/v11-prefixed input that decrypts
successfully, the decryptor returns the first (leftmost) maximal
contiguous run of at least 32 hex characters of either case found in the
decrypted text, when a run of at least 32 exists; otherwise it returns
the decrypted text with all non-printable-ASCII characters stripped. -/
theorem c3_amended_theorem (ks : Option String) (aes : String → List Nat → Option String)
    (hex out D : String)
    (hlen : 4 ≤ (hexDecode hex.data).length)
    (hver : String.mk (utf8Decode ((hexDecode hex.data).take 3)) = "v10" ∨
            String.mk (utf8Decode ((hexDecode hex.data).take 3)) = "v11")
    (hks : ks = some out)
    (hkey : (jsTrim out).data.isEmpty = false)
    (haes : aes (jsTrim out) ((hexDecode hex.data).drop 3) = some D) :
    (∃ r, decryptCookieValue ks aes hex = some (String.mk r) ∧ IsFirstHexRun D.data r) ∨
    (maxHexRun D.data < 32 ∧
     decryptCookieValue ks aes hex = some (String.mk (D.data.filter isPrintableAscii))) := by
  subst hks
  have hmain := decryptSuccessPath aes hex out D hlen hver hkey haes
  cases hfr : firstHexRun D.data with
  | some r =>
    left
    refine ⟨r, ?_, firstHexRunSome _ _ hfr⟩
    rw [hmain]
    unfold recoverDecrypted
    rw [hfr]
  | none =>
    right
    refine ⟨firstHexRunNone _ hfr, ?_⟩
    rw [hmain]
    unfold recoverDecrypted
    rw [hfr]

/-- C3 witness: a concrete successful v10 decryption whose plaintext has
no 32-hex run, exercising the fallback branch of the amended claim. -/
theorem c3_amended_witness :
    decryptCookieValue (some "k") (fun _ _ => some "sh ort¶") "76313000" = some "sh ort" := by
  have h := c3_amended_theorem (some "k") (fun _ _ => some "sh ort¶") "76313000" "k" "sh ort¶"
    (by decide) (Or.inl (by decide)) rfl (by decide) rfl
  rcases h with ⟨r, _, hfirst⟩ | ⟨_, hres⟩
  · exfalso
    obtain ⟨p, t, hdec, _, _, h32, _⟩ := hfirst
    have hlen := congrArg List.length hdec
    simp [List.length_append] at hlen
    omega
  · rw [hres]
    decide

/-- C8: with a v10/v11 prefix, a thrown keychain query, an
empty-after-trim passphrase, or any exception in the derive/decrypt block
each yield null, and the embedded decryptor is a total function (it cannot
raise). -/
theorem c8_decrypt_failure_yields_null (ks : Option String)
    (aes : String → List Nat → Option String) (hex : String)
    (hlen : 4 ≤ (hexDecode hex.data).length)
    (hver : String.mk (utf8Decode ((hexDecode hex.data).take 3)) = "v10" ∨
            String.mk (utf8Decode ((hexDecode hex.data).take 3)) = "v11")
    (hfail : ks = none ∨ ∀ out, ks = some out →
      (jsTrim out).data.isEmpty = true ∨
      aes (jsTrim out) ((hexDecode hex.data).drop 3) = none) :
    decryptCookieValue ks aes hex = none := by
  have h4 : ¬ (hexDecode hex.data).length < 4 := by omega
  have hv : ¬ (String.mk (utf8Decode ((hexDecode hex.data).take 3)) ≠ "v10" ∧
               String.mk (utf8Decode ((hexDecode hex.data).take 3)) ≠ "v11") := by
    rcases hver with hver | hver <;> simp [hver]
  simp only [decryptCookieValue]
  rw [if_neg h4, if_neg hv]
  cases ks with
  | none => rfl
  | some out =>
    rcases hfail with hfail | hfail
    · exact absurd hfail (by simp)
    · rcases hfail out rfl with hkey | haes
      · simp only [hkey, if_true]
      · by_cases hkey : (jsTrim out).data.isEmpty
        · simp only [hkey, if_true]
        · simp only [Bool.not_eq_true] at hkey
          simp only [hkey, Bool.false_eq_true, if_false, haes]

/-- C8 witness: a thrown keychain query on a concrete v10 input. -/
theorem c8_witness :
    decryptCookieValue none (fun _ _ => none) "76313000" = none :=
  c8_decrypt_failure_yields_null none (fun _ _ => none) "76313000"
    (by decide) (Or.inl (by decide)) (Or.inl rfl)

/-! ## Safety of the Safari parser (claim C7) -/

/-- A bounds-checked little-endian read succeeds. -/
theorem readU32LEIsOk (buf : List Nat) (off : Nat) (h : off + 4 ≤ buf.length) :
    ∃ v, readU32LE buf off = .ok v :=
  ⟨_, by rw [readU32LE, if_pos h]⟩

/-- A bounds-checked big-endian read succeeds. -/
theorem readU32BEIsOk (buf : List Nat) (off : Nat) (h : off + 4 ≤ buf.length) :
    ∃ v, readU32BE buf off = .ok v :=
  ⟨_, by rw [readU32BE, if_pos h]⟩

/-- Every read of the record parser is guarded, so it never throws. -/
theorem safariRecordTripleIsOk (page : List Nat) (offset : Nat) :
    ∃ o, safariRecordTriple page offset = .ok o := by
  unfold safariRecordTriple
  by_cases h1 : offset + 4 > page.length
  · rw [if_pos h1]; exact ⟨none, rfl⟩
  · rw [if_neg h1]
    obtain ⟨sz, hsz⟩ := readU32LEIsOk page offset (Nat.le_of_not_lt h1)
    simp only [hsz]
    by_cases h2 : sz = 0 ∨ offset + sz > page.length
    · rw [if_pos h2]; exact ⟨none, rfl⟩
    · rw [if_neg h2]
      push_neg at h2
      by_cases h3 : offset + 4 + 28 > offset + sz
      · rw [if_pos h3]; exact ⟨none, rfl⟩
      · rw [if_neg h3]
        have hb : offset + sz ≤ page.length := h2.2
        obtain ⟨d, hd⟩ := readU32LEIsOk page (offset + 4 + 12) (by omega)
        obtain ⟨n, hn⟩ := readU32LEIsOk page (offset + 4 + 16) (by omega)
        obtain ⟨v, hv⟩ := readU32LEIsOk page (offset + 4 + 24) (by omega)
        simp only [hd, hn, hv]
        split
        · exact ⟨none, rfl⟩
        · split
          · exact ⟨none, rfl⟩
          · exact ⟨_, rfl⟩

/-- The record state transformer never throws. -/
theorem parseSafariCookieRecordIsOk (page : List Nat) (off : Nat) (st : Jar × TwitterCookies) :
    ∃ st1, parseSafariCookieRecord page off st = .ok st1 := by
  unfold parseSafariCookieRecord
  obtain ⟨o, ho⟩ := safariRecordTripleIsOk page off
  simp only [ho]
  cases o with
  | none => exact ⟨st, rfl⟩
  | some nv =>
    obtain ⟨n, v⟩ := nv
    exact ⟨_, rfl⟩

/-- The record fold never throws. -/
theorem parseSafariRecordsIsOk (page : List Nat) :
    ∀ offs st, ∃ st1, parseSafariRecords page offs st = .ok st1 := by
  intro offs
  induction offs with
  | nil => intro st; exact ⟨st, rfl⟩
  | cons off offs ih =>
    intro st
    obtain ⟨st1, h1⟩ := parseSafariCookieRecordIsOk page off st
    rw [parseSafariRecords]
    simp only [h1]
    exact ih st1

/-- The offset-table loop never throws. -/
theorem readPageOffsetsIsOk (page : List Nat) :
    ∀ n cursor, ∃ o, readPageOffsets page cursor n = .ok o := by
  intro n
  induction n with
  | zero => intro cursor; exact ⟨some [], rfl⟩
  | succ n ih =>
    intro cursor
    rw [readPageOffsets]
    by_cases h : cursor + 4 > page.length
    · rw [if_pos h]; exact ⟨none, rfl⟩
    · rw [if_neg h]
      obtain ⟨v, hv⟩ := readU32LEIsOk page cursor (Nat.le_of_not_lt h)
      simp only [hv]
      obtain ⟨o, ho⟩ := ih (cursor + 4)
      simp only [ho]
      cases o with
      | none => exact ⟨none, rfl⟩
      | some rest => exact ⟨some (v :: rest), rfl⟩

/-- The page parser never throws. -/
theorem parseSafariCookiePageIsOk (page : List Nat) (st : Jar × TwitterCookies) :
    ∃ st1, parseSafariCookiePage page st = .ok st1 := by
  unfold parseSafariCookiePage
  by_cases h12 : page.length < 12
  · rw [if_pos h12]; exact ⟨st, rfl⟩
  · rw [if_neg h12]
    by_cases hsig : page.take 4 ≠ SAFARI_PAGE_SIGNATURE
    · rw [if_pos hsig]; exact ⟨st, rfl⟩
    · rw [if_neg hsig]
      obtain ⟨cnt, hcnt⟩ := readU32LEIsOk page 4 (by omega)
      simp only [hcnt]
      by_cases hz : cnt = 0
      · rw [if_pos hz]; exact ⟨st, rfl⟩
      · rw [if_neg hz]
        obtain ⟨o, ho⟩ := readPageOffsetsIsOk page cnt 8
        simp only [ho]
        cases o with
        | none => exact ⟨st, rfl⟩
        | some offsets => exact parseSafariRecordsIsOk page offsets st

/-- The size-table loop never throws. -/
theorem readPageSizesIsOk (data : List Nat) :
    ∀ n cursor, ∃ o, readPageSizes data cursor n = .ok o := by
  intro n
  induction n with
  | zero => intro cursor; exact ⟨some [], rfl⟩
  | succ n ih =>
    intro cursor
    rw [readPageSizes]
    by_cases h : cursor + 4 > data.length
    · rw [if_pos h]; exact ⟨none, rfl⟩
    · rw [if_neg h]
      obtain ⟨v, hv⟩ := readU32BEIsOk data cursor (Nat.le_of_not_lt h)
      simp only [hv]
      obtain ⟨o, ho⟩ := ih (cursor + 4)
      simp only [ho]
      cases o with
      | none => exact ⟨none, rfl⟩
      | some rest => exact ⟨some (v :: rest), rfl⟩

/-- The page fold never throws. -/
theorem parseSafariPagesIsOk (data : List Nat) :
    ∀ sizes cursor st, ∃ st1, parseSafariPages data cursor sizes st = .ok st1 := by
  intro sizes
  induction sizes with
  | nil => intro cursor st; exact ⟨st, rfl⟩
  | cons ps rest ih =>
    intro cursor st
    rw [parseSafariPages]
    by_cases h : cursor + ps > data.length
    · rw [if_pos h]; exact ⟨st, rfl⟩
    · rw [if_neg h]
      obtain ⟨st1, h1⟩ := parseSafariCookiePageIsOk ((data.drop cursor).take ps) st
      simp only [h1]
      exact ih (cursor + ps) st1

/-- The container parser never throws. -/
theorem parseSafariCookiesIsOk (data : List Nat) (st : Jar × TwitterCookies) :
    ∃ st1, parseSafariCookies data st = .ok st1 := by
  unfold parseSafariCookies
  by_cases h8 : data.length < 8
  · rw [if_pos h8]; exact ⟨st, rfl⟩
  · rw [if_neg h8]
    by_cases hm : String.mk (utf8Decode (data.take 4)) ≠ "cook"
    · rw [if_pos hm]; exact ⟨st, rfl⟩
    · rw [if_neg hm]
      obtain ⟨pc, hpc⟩ := readU32BEIsOk data 4 (by omega)
      simp only [hpc]
      obtain ⟨o, ho⟩ := readPageSizesIsOk data pc 8
      simp only [ho]
      cases o with
      | none => exact ⟨st, rfl⟩
      | some sizes => exact parseSafariPagesIsOk data sizes (8 + 4 * pc) st

/-- C7: for every input byte buffer the Safari container parser terminates
with an ok result — no exception and no out-of-bounds buffer read, since
every Buffer read is embedded as a bounds-checked Except computation — and
any buffer whose first four bytes do not spell the magic tag cook is
rejected with the state unchanged, i.e. zero parsed triples. -/
theorem c7_parser_total_and_magic_gated :
    (∀ data st, ∃ st1, parseSafariCookies data st = .ok st1) ∧
    (∀ data st, String.mk (utf8Decode (data.take 4)) ≠ "cook" →
      parseSafariCookies data st = .ok st) := by
  refine ⟨parseSafariCookiesIsOk, ?_⟩
  intro data st hm
  unfold parseSafariCookies
  by_cases h8 : data.length < 8
  · rw [if_pos h8]
  · rw [if_neg h8, if_pos hm]

/-- C7 witness: a concrete three-byte garbage buffer parses to the
unchanged empty state. -/
theorem c7_witness :
    parseSafariCookies [1, 2, 3] ([], emptyCookies) = .ok ([], emptyCookies) :=
  c7_parser_total_and_magic_gated.2 [1, 2, 3] ([], emptyCookies) (by decide)

/-! ## Record emission characterization (claim C6) -/

/-- C6: the claim requires the cookie name to be non-empty after trimming;
the code only requires the raw name to be non-empty and never trims it.
This record (name is a single space, value v, domain x.com) is emitted by
the record parser even though its name trims to the empty string. -/
theorem c6_counterexample :
    safariRecordTriple [42, 0, 0, 0, 0, 0, 0, 0, 0, 0, 0, 0, 0, 0, 0, 0,
      32, 0, 0, 0, 38, 0, 0, 0, 0, 0, 0, 0, 40, 0, 0, 0,
      120, 46, 99, 111, 109, 0, 32, 0, 118, 0] 0 = .ok (some (" ", "v")) ∧
    (jsTrim " ").data = [] :=
  ⟨rfl, by decide⟩

/-- C6 (amended): for a structurally valid record (all bounds checks pass,
with the four header reads pinned by hypotheses), the parser emits a
cookie if and only if the name field is present and non-empty (no trimming
is applied to the name), the domain field matches the allow-list, and the
value field is present and non-empty after trimming; the emitted value is
the trimmed value and the emitted name the raw name. -/
theorem c6_amended_theorem (page : List Nat) (offset recordSize dOff nOff vOff : Nat)
    (h1 : offset + 4 ≤ page.length)
    (h2 : readU32LE page offset = .ok recordSize)
    (h3 : 0 < recordSize)
    (h4 : offset + recordSize ≤ page.length)
    (h5 : 32 ≤ recordSize)
    (h6 : readU32LE page (offset + 4 + 12) = .ok dOff)
    (h7 : readU32LE page (offset + 4 + 16) = .ok nOff)
    (h8 : readU32LE page (offset + 4 + 24) = .ok vOff)
    (n v : String) :
    safariRecordTriple page offset = .ok (some (n, v)) ↔
      (readSafariCString page (offset + nOff) (offset + recordSize) = some n ∧
       n.data ≠ [] ∧
       matchesSafariDomain (readSafariCString page (offset + dOff) (offset + recordSize)) = true ∧
       normalizeValue (readSafariCString page (offset + vOff) (offset + recordSize)) = some v) := by
  unfold safariRecordTriple
  rw [if_neg (not_lt.mpr h1)]
  simp only [h2]
  rw [if_neg (by omega : ¬ (recordSize = 0 ∨ offset + recordSize > page.length))]
  rw [if_neg (by omega : ¬ (offset + 4 + 28 > offset + recordSize))]
  simp only [h6, h7, h8]
  cases hn : readSafariCString page (offset + nOff) (offset + recordSize) with
  | none => simp [strTruthy]
  | some ns =>
    by_cases hne : ns.data = []
    · have hnf : strTruthy (some ns) = false := by simp [strTruthy, hne]
      rw [hnf, if_pos (by simp)]
      constructor
      · intro h; exact absurd h (by simp)
      · rintro ⟨hn2, hnne, -, -⟩
        exact absurd ((Option.some.injEq _ _).mp hn2 ▸ hne) hnne
    · have hns : strTruthy (some ns) = true := by
        simp [strTruthy, List.isEmpty_eq_true, hne]
      cases hv : readSafariCString page (offset + vOff) (offset + recordSize) with
      | none => simp [hns, strTruthy, normalizeValue]
      | some vs =>
        by_cases hvne : vs.data = []
        · have hvf : strTruthy (some vs) = false := by simp [strTruthy, hvne]
          rw [hns, hvf, if_pos (by simp)]
          constructor
          · intro h; exact absurd h (by simp)
          · rintro ⟨-, -, -, hnorm⟩
            rw [normalizeValue] at hnorm
            simp [jsTrim, hvne] at hnorm
        · have hvs : strTruthy (some vs) = true := by
            simp [strTruthy, List.isEmpty_eq_true, hvne]
          by_cases hdom : matchesSafariDomain
              (readSafariCString page (offset + dOff) (offset + recordSize)) = true
          · simp only [hns, hvs, hdom, Bool.not_true, Bool.false_or, Bool.or_false]
            rw [if_neg (by simp)]
            cases hnorm : normalizeValue (some vs) with
            | none => simp
            | some v2 =>
              constructor
              · intro h
                simp only [Option.getD_some, Except.ok.injEq, Option.some.injEq,
                  Prod.mk.injEq] at h
                obtain ⟨he1, he2⟩ := h
                subst he1
                subst he2
                refine ⟨rfl, hne, ?_, rfl⟩
                simp [hdom]
              · rintro ⟨hn2, -, -, hnorm2⟩
                have hnn : ns = n := (Option.some.injEq _ _).mp hn2
                have hvv : v2 = v := (Option.some.injEq _ _).mp hnorm2
                simp [hnn, hvv]
          · have hdomf : matchesSafariDomain
                (readSafariCString page (offset + dOff) (offset + recordSize)) = false :=
              Bool.eq_false_iff.mpr hdom
            simp only [hns, hvs, hdomf, Bool.not_true, Bool.not_false, Bool.false_or,
              Bool.or_true, if_true]
            constructor
            · intro h; exact absurd h (by simp)
            · rintro ⟨-, -, hdom2, -⟩
              exact absurd hdom2 (by simp)

/-- The concrete well-formed record page used by the C6 witness: domain
x.com, name ct0, value a space-padded v. -/
def c6WitnessPage : List Nat :=
  [46, 0, 0, 0, 0, 0, 0, 0, 0, 0, 0, 0, 0, 0, 0, 0,
   32, 0, 0, 0, 38, 0, 0, 0, 0, 0, 0, 0, 42, 0, 0, 0,
   120, 46, 99, 111, 109, 0, 99, 116, 48, 0, 32, 118, 32, 0]

/-- C6 witness: the concrete record is emitted with the raw name and the
trimmed value. -/
theorem c6_amended_witness :
    safariRecordTriple c6WitnessPage 0 = .ok (some ("ct0", "v")) :=
  (c6_amended_theorem c6WitnessPage 0 46 32 38 42
    (by decide) rfl (by decide) (by decide)
    (by decide) rfl rfl rfl "ct0" "v").mpr ⟨rfl, by decide, by decide, by decide⟩

/-! ## Resolver cascade lemmas (claims C1, C4, C10) -/

/-- The cascade returns the cookies of the first complete source. -/
theorem cascadeFirstComplete (f : CookieSource → CookieExtractionResult) :
    ∀ l1 (s : CookieSource) (l2 : List CookieSource),
      (∀ t ∈ l1, hasBothTokens (f t).cookies = false) →
      hasBothTokens (f s).cookies = true →
      ∃ ws, cascade f (l1 ++ s :: l2) = (some (f s).cookies, ws) := by
  intro l1
  induction l1 with
  | nil =>
    intro s l2 _ hs
    refine ⟨(f s).warnings, ?_⟩
    rw [List.nil_append, cascade, if_pos hs]
  | cons t l1 ih =>
    intro s l2 h1 hs
    have ht := h1 t (List.mem_cons_self t l1)
    obtain ⟨ws, hws⟩ := ih s l2 (fun u hu => h1 u (List.mem_cons_of_mem t hu)) hs
    refine ⟨(f t).warnings ++ ws, ?_⟩
    rw [List.cons_append, cascade, if_neg (by simp [ht])]
    simp [hws]

/-- A cascade of incomplete sources finds nothing. -/
theorem cascadeAllIncomplete (f : CookieSource → CookieExtractionResult) :
    ∀ l, (∀ s ∈ l, hasBothTokens (f s).cookies = false) →
      ∃ ws, cascade f l = (none, ws) := by
  intro l
  induction l with
  | nil => intro _; exact ⟨[], rfl⟩
  | cons s l ih =>
    intro h
    obtain ⟨ws, hws⟩ := ih (fun u hu => h u (List.mem_cons_of_mem s hu))
    refine ⟨(f s).warnings ++ ws, ?_⟩
    rw [cascade, if_neg (by simp [h s (List.mem_cons_self s l)])]
    simp [hws]

/-- Steps 1 and 2 of the resolver never set a cookie header. -/
theorem preCascadeHeaderNone (env : String → Option String) (opts : ResolveOptions) :
    (preCascadeCookies env opts).cookieHeader = none := by
  simp only [preCascadeCookies]
  repeat' split
  all_goals simp [emptyCookies]

/-- C1: whenever the cascade runs (the argument/environment steps left at
least one credential missing), the first source in the cascade order whose
extraction result has both tokens populated supplies the entire returned
cookies value — jar serialization, cookieHeader and source label included
— and the incomplete sources before it contribute nothing to the token
fields of the result. -/
theorem c1_first_complete_source_wins (env : String → Option String)
    (f : CookieSource → CookieExtractionResult) (opts : ResolveOptions)
    (l1 : List CookieSource) (s : CookieSource) (l2 : List CookieSource)
    (hpre : hasBothTokens (preCascadeCookies env opts) = false)
    (hsplit : sourcesToTry opts.cookieSource = l1 ++ s :: l2)
    (hincomplete : ∀ t ∈ l1, hasBothTokens (f t).cookies = false)
    (hcomplete : hasBothTokens (f s).cookies = true) :
    (resolveCredentials env f opts).cookies = (f s).cookies := by
  obtain ⟨ws, hws⟩ := cascadeFirstComplete f l1 s l2 hincomplete hcomplete
  simp only [resolveCredentials]
  rw [if_neg (by simp [hpre]), hsplit, hws]

/-- C1 witness: Safari yields only a session token, Chrome yields both;
the result is exactly the Chrome cookies. -/
theorem c1_witness :
    (resolveCredentials (fun _ => none)
      (fun s => match s with
        | CookieSource.safari =>
          ⟨{ authToken := some "a", ct0 := none, cookieHeader := some "auth_token=a",
             source := some "Safari" }, ["w1"]⟩
        | _ =>
          ⟨{ authToken := some "a", ct0 := some "b",
             cookieHeader := some "auth_token=a; ct0=b",
             source := some "Chrome default profile" }, []⟩)
      {}).cookies =
    { authToken := some "a", ct0 := some "b", cookieHeader := some "auth_token=a; ct0=b",
      source := some "Chrome default profile" } :=
  c1_first_complete_source_wins (fun _ => none) _ {}
    [CookieSource.safari] CookieSource.chrome [CookieSource.firefox]
    (by decide) rfl (by decide) (by decide)

/-- C4: when both token fields are filled by the argument/environment
steps, the resolver returns the same result whatever the browser
extractors would do (no browser is probed), and the returned cookieHeader
is exactly the fixed-order composition of the two returned token values. -/
theorem c4_early_return_composes_header (env : String → Option String) (opts : ResolveOptions)
    (h : hasBothTokens (preCascadeCookies env opts) = true) :
    ∀ f g, resolveCredentials env f opts = resolveCredentials env g opts ∧
      (resolveCredentials env f opts).cookies.cookieHeader =
        some ("auth_token=" ++ ((resolveCredentials env f opts).cookies.authToken.getD "") ++
              "; ct0=" ++ ((resolveCredentials env f opts).cookies.ct0.getD "")) ∧
      (resolveCredentials env f opts).cookies.authToken = (preCascadeCookies env opts).authToken ∧
      (resolveCredentials env f opts).cookies.ct0 = (preCascadeCookies env opts).ct0 := by
  have hr : ∀ h2 : CookieSource → CookieExtractionResult, resolveCredentials env h2 opts =
      { cookies := { preCascadeCookies env opts with
          cookieHeader := some (composeArgHeader (preCascadeCookies env opts)) },
        warnings := [] } := by
    intro h2
    simp only [resolveCredentials]
    rw [if_pos h]
  intro f g
  rw [hr f, hr g]
  exact ⟨rfl, rfl, rfl, rfl⟩

/-- C4 witness: concrete explicit arguments, two different extractor
oracles, identical results with the composed header. -/
theorem c4_witness :
    (resolveCredentials (fun _ => none) (fun _ => ⟨emptyCookies, []⟩)
        { authToken := some "a", ct0 := some "b" } =
      resolveCredentials (fun _ => none)
        (fun _ => ⟨{ authToken := some "x", ct0 := some "y", cookieHeader := some "z",
                     source := some "Safari" }, ["w"]⟩)
        { authToken := some "a", ct0 := some "b" }) ∧
    (resolveCredentials (fun _ => none) (fun _ => ⟨emptyCookies, []⟩)
        { authToken := some "a", ct0 := some "b" }).cookies.cookieHeader =
      some ("auth_token=" ++
        (((resolveCredentials (fun _ => none) (fun _ => ⟨emptyCookies, []⟩)
          { authToken := some "a", ct0 := some "b" }).cookies.authToken).getD "") ++
        "; ct0=" ++
        (((resolveCredentials (fun _ => none) (fun _ => ⟨emptyCookies, []⟩)
          { authToken := some "a", ct0 := some "b" }).cookies.ct0).getD "")) := by
  have h := c4_early_return_composes_header (fun _ => none)
    { authToken := some "a", ct0 := some "b" } (by decide)
    (fun _ => ⟨emptyCookies, []⟩)
    (fun _ => ⟨{ authToken := some "x", ct0 := some "y", cookieHeader := some "z",
                 source := some "Safari" }, ["w"]⟩)
  exact ⟨h.1, h.2.1⟩

/-- C10: when the argument/environment steps leave the credentials
incomplete and no browser source is complete either, the returned token
fields and source label are exactly the pre-cascade ones — no partial
browser value leaks into the result — and the returned cookieHeader is
null. -/
theorem c10_exhausted_cascade_frame (env : String → Option String)
    (f : CookieSource → CookieExtractionResult) (opts : ResolveOptions)
    (hpre : hasBothTokens (preCascadeCookies env opts) = false)
    (hall : ∀ s ∈ sourcesToTry opts.cookieSource, hasBothTokens (f s).cookies = false) :
    (resolveCredentials env f opts).cookies.authToken = (preCascadeCookies env opts).authToken ∧
    (resolveCredentials env f opts).cookies.ct0 = (preCascadeCookies env opts).ct0 ∧
    (resolveCredentials env f opts).cookies.source = (preCascadeCookies env opts).source ∧
    (resolveCredentials env f opts).cookies.cookieHeader = none := by
  obtain ⟨ws, hws⟩ := cascadeAllIncomplete f _ hall
  have hform : (resolveCredentials env f opts).cookies = preCascadeCookies env opts := by
    simp only [resolveCredentials]
    rw [if_neg (by simp [hpre]), hws]
    simp [hpre]
  rw [hform]
  exact ⟨rfl, rfl, rfl, preCascadeHeaderNone env opts⟩

/-- C10 witness: nothing supplied anywhere; the result carries the empty
pre-cascade fields and a null header. -/
theorem c10_witness :
    (resolveCredentials (fun _ => none) (fun _ => ⟨emptyCookies, []⟩) {}).cookies.authToken =
      (preCascadeCookies (fun _ => none) {}).authToken ∧
    (resolveCredentials (fun _ => none) (fun _ => ⟨emptyCookies, []⟩) {}).cookies.ct0 =
      (preCascadeCookies (fun _ => none) {}).ct0 ∧
    (resolveCredentials (fun _ => none) (fun _ => ⟨emptyCookies, []⟩) {}).cookies.source =
      (preCascadeCookies (fun _ => none) {}).source ∧
    (resolveCredentials (fun _ => none) (fun _ => ⟨emptyCookies, []⟩) {}).cookies.cookieHeader =
      none :=
  c10_exhausted_cascade_frame (fun _ => none) (fun _ => ⟨emptyCookies, []⟩) {}
    (by decide) (by decide)

/-! ## CLI-argument priority (claim C5) -/

/-- C5: the claim asserts the source label is always CLI argument when any
token is doubly supplied.  Here ct0 is supplied both as an explicit
argument (c) and via a conflicting non-empty environment variable CT0
(zz); the argument value does win for the token field, but because the
auth token is filled from the environment, the auth_token env branch
unconditionally overwrites the source stamp, so the returned label is env
AUTH_TOKEN, not CLI argument. -/
theorem c5_counterexample :
    (resolveCredentials
        (fun k => if k = "AUTH_TOKEN" then some "a" else if k = "CT0" then some "zz" else none)
        (fun _ => ⟨emptyCookies, []⟩) { ct0 := some "c" }).cookies.ct0 = some "c" ∧
    (fun k => if k = "AUTH_TOKEN" then some "a"
      else if k = "CT0" then some "zz" else none : String → Option String) "CT0" = some "zz" ∧
    ("zz" : String) ≠ "c" ∧
    (resolveCredentials
        (fun k => if k = "AUTH_TOKEN" then some "a" else if k = "CT0" then some "zz" else none)
        (fun _ => ⟨emptyCookies, []⟩) { ct0 := some "c" }).cookies.source =
      some "env AUTH_TOKEN" ∧
    (some "env AUTH_TOKEN" ≠ some "CLI argument") := by
  refine ⟨by decide, by decide, by decide, by decide, by decide⟩

/-- C5 (amended): an explicit argument always beats the environment for
its own token field (the environment is consulted only for fields not
filled by arguments).  The source label is CLI argument whenever the
session token is an explicit argument; when only the csrf token is an
explicit argument and the session token is filled from the environment,
the label is env VAR for the winning variable instead.  On the
early-return path these pre-cascade fields are returned unchanged. -/
theorem c5_amended_theorem (env : String → Option String) (opts : ResolveOptions) :
    (strTruthy opts.authToken = true →
      (preCascadeCookies env opts).authToken = opts.authToken ∧
      (preCascadeCookies env opts).source = some "CLI argument") ∧
    (strTruthy opts.ct0 = true → (preCascadeCookies env opts).ct0 = opts.ct0) ∧
    (strTruthy opts.authToken = false → strTruthy opts.ct0 = true →
      ∀ k v, envLookup env envAuthKeys = some (k, v) →
        (preCascadeCookies env opts).authToken = some v ∧
        (preCascadeCookies env opts).source = some ("env " ++ k)) ∧
    (hasBothTokens (preCascadeCookies env opts) = true →
      ∀ f, (resolveCredentials env f opts).cookies.authToken =
          (preCascadeCookies env opts).authToken ∧
        (resolveCredentials env f opts).cookies.ct0 = (preCascadeCookies env opts).ct0 ∧
        (resolveCredentials env f opts).cookies.source = (preCascadeCookies env opts).source) := by
  have hcli : strTruthy (some "CLI argument") = true := by decide
  have hsn : strTruthy none = false := by decide
  refine ⟨?_, ?_, ?_, ?_⟩
  · intro ha
    by_cases hct : strTruthy opts.ct0 = true
    · simp [preCascadeCookies, ha, hct, hcli, hsn, emptyCookies]
    · have hct2 : strTruthy opts.ct0 = false := Bool.eq_false_iff.mpr hct
      cases henv : envLookup env envCt0Keys with
      | none => simp [preCascadeCookies, ha, hct2, henv, hcli, hsn, emptyCookies]
      | some kv => simp [preCascadeCookies, ha, hct2, henv, hcli, hsn, emptyCookies]
  · intro hc
    by_cases hat : strTruthy opts.authToken = true
    · simp [preCascadeCookies, hc, hat, hcli, hsn, emptyCookies]
    · have hat2 : strTruthy opts.authToken = false := Bool.eq_false_iff.mpr hat
      cases henv : envLookup env envAuthKeys with
      | none => simp [preCascadeCookies, hc, hat2, henv, hcli, hsn, emptyCookies]
      | some kv => simp [preCascadeCookies, hc, hat2, henv, hcli, hsn, emptyCookies]
  · intro ha hc k v hkv
    simp [preCascadeCookies, ha, hc, hkv, hcli, hsn, emptyCookies]
  · intro h f
    have hr : resolveCredentials env f opts =
        { cookies := { preCascadeCookies env opts with
            cookieHeader := some (composeArgHeader (preCascadeCookies env opts)) },
          warnings := [] } := by
      simp only [resolveCredentials]
      rw [if_pos h]
    rw [hr]
    exact ⟨rfl, rfl, rfl⟩

/-- C5 witness: auth token given as the CLI argument a while every
environment variable holds b; the argument wins for the token field and
the label is CLI argument; the ct0 argument also wins. -/
theorem c5_amended_witness :
    (preCascadeCookies (fun _ => some "b") { authToken := some "a", ct0 := some "c" }).authToken =
      some "a" ∧
    (preCascadeCookies (fun _ => some "b") { authToken := some "a", ct0 := some "c" }).source =
      some "CLI argument" ∧
    (preCascadeCookies (fun _ => some "b") { authToken := some "a", ct0 := some "c" }).ct0 =
      some "c" := by
  have h := c5_amended_theorem (fun _ => some "b") { authToken := some "a", ct0 := some "c" }
  obtain ⟨h1, h2⟩ := h.1 (by decide)
  exact ⟨h1, h2, h.2.1 (by decide)⟩

/-! ## Duplicate credential rows (claim C9) -/

/-- One Chrome row never changes an already-truthy authToken slot. -/
theorem chromeLineAuthPreserve (dec : String → Option String) (st : Jar × TwitterCookies)
    (line : String) (h : strTruthy st.2.authToken = true) :
    (chromeLine dec st line).2.authToken = st.2.authToken := by
  unfold chromeLine
  repeat' split
  all_goals simp [tokenUpdate, h]
  all_goals split <;> rfl

/-- One Chrome row never changes an already-truthy ct0 slot. -/
theorem chromeLineCt0Preserve (dec : String → Option String) (st : Jar × TwitterCookies)
    (line : String) (h : strTruthy st.2.ct0 = true) :
    (chromeLine dec st line).2.ct0 = st.2.ct0 := by
  unfold chromeLine
  repeat' split
  all_goals simp [tokenUpdate, h]
  all_goals split <;> rfl

/-- Later rows never change an already-truthy authToken slot. -/
theorem scanFoldAuthPreserve (dec : String → Option String) :
    ∀ (lines : List String) (st : Jar × TwitterCookies), strTruthy st.2.authToken = true →
      (lines.foldl (chromeLine dec) st).2.authToken = st.2.authToken := by
  intro lines
  induction lines with
  | nil => intro st _; rfl
  | cons line rest ih =>
    intro st h
    rw [List.foldl_cons]
    have h1 := chromeLineAuthPreserve dec st line h
    have h2 : strTruthy (chromeLine dec st line).2.authToken = true := by rw [h1]; exact h
    rw [ih _ h2, h1]

/-- Later rows never change an already-truthy ct0 slot. -/
theorem scanFoldCt0Preserve (dec : String → Option String) :
    ∀ (lines : List String) (st : Jar × TwitterCookies), strTruthy st.2.ct0 = true →
      (lines.foldl (chromeLine dec) st).2.ct0 = st.2.ct0 := by
  intro lines
  induction lines with
  | nil => intro st _; rfl
  | cons line rest ih =>
    intro st h
    rw [List.foldl_cons]
    have h1 := chromeLineCt0Preserve dec st line h
    have h2 : strTruthy (chromeLine dec st line).2.ct0 = true := by rw [h1]; exact h
    rw [ih _ h2, h1]

/-- Finding the updated entry after an in-place jar update. -/
theorem findMapUpdate (n v : String) :
    ∀ jar : Jar, jar.any (fun p => p.1 == n) = true →
      (jar.map (fun p => if p.1 == n then (n, v) else p)).find? (fun q => q.1 == n) =
        some (n, v) := by
  intro jar
  induction jar with
  | nil => intro h; simp at h
  | cons p ps ih =>
    intro h
    by_cases hp : (p.1 == n) = true
    · simp only [List.map_cons, hp, if_true]
      exact List.find?_cons_of_pos _ (by simp)
    · have hp2 : (p.1 == n) = false := Bool.eq_false_iff.mpr hp
      have hany : ps.any (fun p => p.1 == n) = true := by
        simp only [List.any_cons, hp2, Bool.false_or] at h
        exact h
      simp only [List.map_cons, hp2, Bool.false_eq_true, if_false]
      rw [List.find?_cons_of_neg _ (by simp [hp2])]
      exact ih hany

/-- Finding the appended entry when the key was absent. -/
theorem findAppendSingleton (n v : String) :
    ∀ jar : Jar, jar.any (fun p => p.1 == n) = false →
      (jar ++ [(n, v)]).find? (fun q => q.1 == n) = some (n, v) := by
  intro jar
  induction jar with
  | nil => intro _; simp [List.find?_cons_of_pos]
  | cons p ps ih =>
    intro h
    simp only [List.any_cons, Bool.or_eq_false_iff] at h
    rw [List.cons_append, List.find?_cons_of_neg _ (by simp [h.1])]
    exact ih h.2

/-- The jar read of a just-written key yields the written value: the
JavaScript assignment jar[name] = value always wins for that key. -/
theorem jarLookupInsert (jar : Jar) (n v : String) :
    jarLookup (jarInsert jar n v) n = some v := by
  unfold jarInsert jarLookup
  by_cases h : jar.any (fun p => p.1 == n) = true
  · rw [if_pos h, findMapUpdate n v jar h]
    rfl
  · rw [if_neg (by simp [h]), findAppendSingleton n v jar (Bool.eq_false_iff.mpr h)]
    rfl

/-- A decryptable auth_token row populates an unpopulated authToken
slot. -/
theorem chromeLineSetsAuth (dec : String → Option String) (st : Jar × TwitterCookies)
    (line name enc v : String) (parts : List String)
    (hsplit : jsSplit line '|' = name :: enc :: parts)
    (hname : name.data.isEmpty = false) (henc : enc.data.isEmpty = false)
    (hdec : dec enc = some v) (hv : v.data.isEmpty = false)
    (hn : name = "auth_token") (hslot : strTruthy st.2.authToken = false) :
    (chromeLine dec st line).2.authToken = some v := by
  unfold chromeLine
  rw [hsplit]
  simp only [hname, henc, Bool.or_self, Bool.false_eq_true, if_false, hdec, hv]
  subst hn
  have heq : ("auth_token" == "auth_token") = true := by decide
  unfold tokenUpdate
  rw [if_pos (by simp [heq, hslot])]

/-- A decryptable ct0 row populates an unpopulated ct0 slot. -/
theorem chromeLineSetsCt0 (dec : String → Option String) (st : Jar × TwitterCookies)
    (line name enc v : String) (parts : List String)
    (hsplit : jsSplit line '|' = name :: enc :: parts)
    (hname : name.data.isEmpty = false) (henc : enc.data.isEmpty = false)
    (hdec : dec enc = some v) (hv : v.data.isEmpty = false)
    (hn : name = "ct0") (hslot : strTruthy st.2.ct0 = false) :
    (chromeLine dec st line).2.ct0 = some v := by
  unfold chromeLine
  rw [hsplit]
  simp only [hname, henc, Bool.or_self, Bool.false_eq_true, if_false, hdec, hv]
  subst hn
  have hne : ("ct0" == "auth_token") = false := by decide
  have heq : ("ct0" == "ct0") = true := by decide
  unfold tokenUpdate
  rw [if_neg (by simp [hne]), if_pos (by simp [heq, hslot])]

/-- C9 (amended): for a Chrome row that splits into a cookie name and a
decryptable truthy value v, five facts hold.  First, processing that row
from any state overwrites the jar entry for its name with v, so wherever
a later duplicate occurs the jar — and hence the serialized cookieHeader
— reflects the last decryptable value.  Second and third, once the
authToken (resp. ct0) slot is populated after some prefix of rows, any
further rows — duplicates for that key included — leave that slot
unchanged.  Fourth and fifth, when the row is named auth_token (resp.
ct0) and the corresponding slot is still unpopulated, processing the row
populates that slot with v: the first decryptable row wins for the token
field. -/
theorem c9_amended_theorem (dec : String → Option String) (lines1 rest : List String)
    (line name enc v : String) (parts : List String)
    (hsplit : jsSplit line '|' = name :: enc :: parts)
    (hname : name.data.isEmpty = false) (henc : enc.data.isEmpty = false)
    (hdec : dec enc = some v) (hv : v.data.isEmpty = false) :
    (∀ st : Jar × TwitterCookies, jarLookup (chromeLine dec st line).1 name = some v) ∧
    (strTruthy (scanChromeLines dec lines1).2.authToken = true →
      (scanChromeLines dec (lines1 ++ rest)).2.authToken =
        (scanChromeLines dec lines1).2.authToken) ∧
    (strTruthy (scanChromeLines dec lines1).2.ct0 = true →
      (scanChromeLines dec (lines1 ++ rest)).2.ct0 =
        (scanChromeLines dec lines1).2.ct0) ∧
    (name = "auth_token" → strTruthy (scanChromeLines dec lines1).2.authToken = false →
      (scanChromeLines dec (lines1 ++ [line])).2.authToken = some v) ∧
    (name = "ct0" → strTruthy (scanChromeLines dec lines1).2.ct0 = false →
      (scanChromeLines dec (lines1 ++ [line])).2.ct0 = some v) := by
  refine ⟨?_, ?_, ?_, ?_, ?_⟩
  · intro st
    unfold chromeLine
    rw [hsplit]
    simp only [hname, henc, Bool.or_self, Bool.false_eq_true, if_false, hdec, hv]
    exact jarLookupInsert st.1 name v
  · intro hauth
    unfold scanChromeLines at hauth ⊢
    rw [List.foldl_append]
    exact scanFoldAuthPreserve dec rest _ hauth
  · intro hct0
    unfold scanChromeLines at hct0 ⊢
    rw [List.foldl_append]
    exact scanFoldCt0Preserve dec rest _ hct0
  · intro hn hslot
    unfold scanChromeLines at hslot ⊢
    rw [List.foldl_append, List.foldl_cons, List.foldl_nil]
    exact chromeLineSetsAuth dec _ line name enc v parts hsplit hname henc hdec hv hn hslot
  · intro hn hslot
    unfold scanChromeLines at hslot ⊢
    rw [List.foldl_append, List.foldl_cons, List.foldl_nil]
    exact chromeLineSetsCt0 dec _ line name enc v parts hsplit hname henc hdec hv hn hslot

/-- C9 witness: concrete instances for both credential keys — a first
decryptable ct0 row populates the empty slot, a later ct0 duplicate
leaves the populated slot unchanged while overwriting the jar entry, and
a first auth_token row populates its slot. -/
theorem c9_amended_witness :
    (scanChromeLines (decryptCookieValue none (fun _ _ => none))
      (["ct0|61616161"] ++ ["ct0|79797979"])).2.ct0 =
      (scanChromeLines (decryptCookieValue none (fun _ _ => none)) ["ct0|61616161"]).2.ct0 ∧
    jarLookup (chromeLine (decryptCookieValue none (fun _ _ => none))
      (scanChromeLines (decryptCookieValue none (fun _ _ => none)) ["ct0|61616161"])
      "ct0|79797979").1 "ct0" = some "yyyy" ∧
    (scanChromeLines (decryptCookieValue none (fun _ _ => none))
      ([] ++ ["ct0|79797979"])).2.ct0 = some "yyyy" ∧
    (scanChromeLines (decryptCookieValue none (fun _ _ => none))
      ([] ++ ["auth_token|79797979"])).2.authToken = some "yyyy" := by
  have h1 := c9_amended_theorem (decryptCookieValue none (fun _ _ => none))
    ["ct0|61616161"] ["ct0|79797979"] "ct0|79797979" "ct0" "79797979" "yyyy" []
    (by decide) (by decide) (by decide) (by decide) (by decide)
  have h2 := c9_amended_theorem (decryptCookieValue none (fun _ _ => none))
    [] [] "ct0|79797979" "ct0" "79797979" "yyyy" []
    (by decide) (by decide) (by decide) (by decide) (by decide)
  have h3 := c9_amended_theorem (decryptCookieValue none (fun _ _ => none))
    [] [] "auth_token|79797979" "auth_token" "79797979" "yyyy" []
    (by decide) (by decide) (by decide) (by decide) (by decide)
  exact ⟨h1.2.2.1 (by decide),
    h1.1 (scanChromeLines (decryptCookieValue none (fun _ _ => none)) ["ct0|61616161"]),
    h2.2.2.2.2 rfl (by decide), h3.2.2.2.1 rfl (by decide)⟩

/-- C9: the claim asserts later duplicate rows change neither the token
field nor the jar and cookieHeader.  With rows auth_token=xxxx, ct0=aaaa,
auth_token=yyyy (all legacy-encrypted hex), the token field keeps the
first value xxxx but the cookieHeader serializes the overwritten jar value
yyyy; dropping the duplicate row yields a different cookieHeader, so the
duplicate is not ignored by the jar. -/
theorem c9_counterexample :
    (extractChromeFromLines (decryptCookieValue none (fun _ _ => none))
      ["auth_token|78787878", "ct0|61616161", "auth_token|79797979"] none).authToken =
      some "xxxx" ∧
    (extractChromeFromLines (decryptCookieValue none (fun _ _ => none))
      ["auth_token|78787878", "ct0|61616161", "auth_token|79797979"] none).cookieHeader =
      some "auth_token=yyyy; ct0=aaaa" ∧
    (extractChromeFromLines (decryptCookieValue none (fun _ _ => none))
      ["auth_token|78787878", "ct0|61616161"] none).cookieHeader =
      some "auth_token=xxxx; ct0=aaaa" ∧
    some "auth_token=yyyy; ct0=aaaa" ≠ some "auth_token=xxxx; ct0=aaaa" := by
  refine ⟨by decide, by decide, by decide, by decide⟩

/-! ## Header/jar invariants of the extractors (claim C2) -/

/-- The credential-slot update never touches the cookie header. -/
theorem tokenUpdateHeaderPreserve (ck : TwitterCookies) (n v : String) :
    (tokenUpdate ck n v).cookieHeader = ck.cookieHeader := by
  unfold tokenUpdate
  repeat' split
  all_goals rfl

/-- One Chrome row never touches the cookie header. -/
theorem chromeLineHeaderPreserve (dec : String → Option String) (st : Jar × TwitterCookies)
    (line : String) : (chromeLine dec st line).2.cookieHeader = st.2.cookieHeader := by
  unfold chromeLine
  repeat' split
  all_goals simp [tokenUpdateHeaderPreserve]

/-- The Chrome row scan never sets a cookie header. -/
theorem scanChromeHeaderPreserve (dec : String → Option String) :
    ∀ (lines : List String) (st : Jar × TwitterCookies),
      (lines.foldl (chromeLine dec) st).2.cookieHeader = st.2.cookieHeader := by
  intro lines
  induction lines with
  | nil => intro st; rfl
  | cons line rest ih =>
    intro st
    rw [List.foldl_cons, ih, chromeLineHeaderPreserve]

/-- One Firefox row never touches the cookie header. -/
theorem firefoxLineHeaderPreserve (st : Jar × TwitterCookies) (line : String) :
    (firefoxLine st line).2.cookieHeader = st.2.cookieHeader := by
  unfold firefoxLine
  repeat' split
  all_goals simp [tokenUpdateHeaderPreserve]

/-- The Firefox row scan never sets a cookie header. -/
theorem scanFirefoxHeaderPreserve :
    ∀ (lines : List String) (st : Jar × TwitterCookies),
      (lines.foldl firefoxLine st).2.cookieHeader = st.2.cookieHeader := by
  intro lines
  induction lines with
  | nil => intro st; rfl
  | cons line rest ih =>
    intro st
    rw [List.foldl_cons, ih, firefoxLineHeaderPreserve]

/-- A jar write never leaves the jar empty. -/
theorem jarInsertNeNil (jar : Jar) (n v : String) : jarInsert jar n v ≠ [] := by
  unfold jarInsert
  split
  next h =>
    cases jar with
    | nil => simp at h
    | cons p ps => simp
  next => simp

/-- One Chrome row preserves the invariant that a populated credential
slot implies a non-empty jar. -/
theorem chromeLineTokenJarInv (dec : String → Option String) (st : Jar × TwitterCookies)
    (line : String)
    (hP : (strTruthy st.2.authToken || strTruthy st.2.ct0) = true → st.1 ≠ []) :
    (strTruthy (chromeLine dec st line).2.authToken ||
      strTruthy (chromeLine dec st line).2.ct0) = true → (chromeLine dec st line).1 ≠ [] := by
  unfold chromeLine
  repeat' split
  all_goals first
    | exact hP
    | (intro _; exact jarInsertNeNil _ _ _)

/-- The Chrome scan yields a populated credential slot only with a
non-empty jar. -/
theorem scanChromeTokenJarInv (dec : String → Option String) :
    ∀ (lines : List String) (st : Jar × TwitterCookies),
      ((strTruthy st.2.authToken || strTruthy st.2.ct0) = true → st.1 ≠ []) →
      (strTruthy (lines.foldl (chromeLine dec) st).2.authToken ||
        strTruthy (lines.foldl (chromeLine dec) st).2.ct0) = true →
      (lines.foldl (chromeLine dec) st).1 ≠ [] := by
  intro lines
  induction lines with
  | nil => intro st h; exact h
  | cons line rest ih =>
    intro st h
    rw [List.foldl_cons]
    exact ih _ (chromeLineTokenJarInv dec st line h)

/-- One Firefox row preserves the populated-slot-implies-jar invariant. -/
theorem firefoxLineTokenJarInv (st : Jar × TwitterCookies) (line : String)
    (hP : (strTruthy st.2.authToken || strTruthy st.2.ct0) = true → st.1 ≠ []) :
    (strTruthy (firefoxLine st line).2.authToken ||
      strTruthy (firefoxLine st line).2.ct0) = true → (firefoxLine st line).1 ≠ [] := by
  unfold firefoxLine
  repeat' split
  all_goals first
    | exact hP
    | (intro _; exact jarInsertNeNil _ _ _)

/-- The Firefox scan yields a populated credential slot only with a
non-empty jar. -/
theorem scanFirefoxTokenJarInv :
    ∀ (lines : List String) (st : Jar × TwitterCookies),
      ((strTruthy st.2.authToken || strTruthy st.2.ct0) = true → st.1 ≠ []) →
      (strTruthy (lines.foldl firefoxLine st).2.authToken ||
        strTruthy (lines.foldl firefoxLine st).2.ct0) = true →
      (lines.foldl firefoxLine st).1 ≠ [] := by
  intro lines
  induction lines with
  | nil => intro st h; exact h
  | cons line rest ih =>
    intro st h
    rw [List.foldl_cons]
    exact ih _ (firefoxLineTokenJarInv st line h)

/-- The finalize block keeps the token slots unchanged. -/
theorem finalizeTokensPreserve (label : String) (st : Jar × TwitterCookies) :
    (finalizeCookies label st).authToken = st.2.authToken ∧
    (finalizeCookies label st).ct0 = st.2.ct0 := by
  by_cases h1 : List.length st.1 > 0
  · simp only [finalizeCookies, if_pos h1]
    split <;> exact ⟨rfl, rfl⟩
  · simp only [finalizeCookies, if_neg h1]
    split <;> exact ⟨rfl, rfl⟩

/-- With a non-empty jar, the finalize block sets the serialized header. -/
theorem finalizeHeaderNonempty (label : String) (st : Jar × TwitterCookies)
    (h : st.1 ≠ []) :
    (finalizeCookies label st).cookieHeader = some (serializeCookieJar st.1) := by
  have h1 : List.length st.1 > 0 := List.length_pos.mpr h
  simp only [finalizeCookies, if_pos h1]
  split <;> rfl

/-- With an empty jar, the finalize block keeps the incoming header. -/
theorem finalizeHeaderEmpty (label : String) (st : Jar × TwitterCookies)
    (h : st.1 = []) :
    (finalizeCookies label st).cookieHeader = st.2.cookieHeader := by
  have h1 : ¬ List.length st.1 > 0 := by simp [h]
  simp only [finalizeCookies, if_neg h1]
  split <;> rfl

/-- A parsed record never touches the cookie header. -/
theorem recordHeaderPreserve (page : List Nat) (off : Nat) (st st1 : Jar × TwitterCookies)
    (heq : parseSafariCookieRecord page off st = .ok st1) :
    st1.2.cookieHeader = st.2.cookieHeader := by
  unfold parseSafariCookieRecord at heq
  cases htr : safariRecordTriple page off with
  | error e => rw [htr] at heq; exact absurd heq (by simp)
  | ok o =>
    rw [htr] at heq
    cases o with
    | none =>
      have : st = st1 := by simpa using heq
      rw [this]
    | some nv =>
      obtain ⟨n, v⟩ := nv
      have : (jarInsert st.1 n v, tokenUpdate st.2 n v) = st1 := by simpa using heq
      rw [← this]
      exact tokenUpdateHeaderPreserve st.2 n v

/-- The record fold never touches the cookie header. -/
theorem recordsHeaderPreserve (page : List Nat) :
    ∀ offs (st st1 : Jar × TwitterCookies),
      parseSafariRecords page offs st = .ok st1 →
      st1.2.cookieHeader = st.2.cookieHeader := by
  intro offs
  induction offs with
  | nil =>
    intro st st1 heq
    have : st = st1 := by simpa [parseSafariRecords] using heq
    rw [this]
  | cons off offs ih =>
    intro st st1 heq
    rw [parseSafariRecords] at heq
    cases hr : parseSafariCookieRecord page off st with
    | error e => rw [hr] at heq; exact absurd heq (by simp)
    | ok stm =>
      rw [hr] at heq
      simp only [] at heq
      rw [ih stm st1 heq, recordHeaderPreserve page off st stm hr]

/-- The page parser never touches the cookie header. -/
theorem pageHeaderPreserve (page : List Nat) (st st1 : Jar × TwitterCookies)
    (heq : parseSafariCookiePage page st = .ok st1) :
    st1.2.cookieHeader = st.2.cookieHeader := by
  unfold parseSafariCookiePage at heq
  by_cases h12 : page.length < 12
  · rw [if_pos h12] at heq
    have : st = st1 := by simpa using heq
    rw [this]
  · rw [if_neg h12] at heq
    by_cases hsig : page.take 4 ≠ SAFARI_PAGE_SIGNATURE
    · rw [if_pos hsig] at heq
      have : st = st1 := by simpa using heq
      rw [this]
    · rw [if_neg hsig] at heq
      cases hcnt : readU32LE page 4 with
      | error e => rw [hcnt] at heq; exact absurd heq (by simp)
      | ok cnt =>
        rw [hcnt] at heq
        simp only [] at heq
        by_cases hz : cnt = 0
        · rw [if_pos hz] at heq
          have : st = st1 := by simpa using heq
          rw [this]
        · rw [if_neg hz] at heq
          cases ho : readPageOffsets page 8 cnt with
          | error e => rw [ho] at heq; exact absurd heq (by simp)
          | ok o =>
            rw [ho] at heq
            cases o with
            | none =>
              have : st = st1 := by simpa using heq
              rw [this]
            | some offsets =>
              simp only [] at heq
              exact recordsHeaderPreserve page offsets st st1 heq

/-- The page fold never touches the cookie header. -/
theorem pagesHeaderPreserve (data : List Nat) :
    ∀ sizes cursor (st st1 : Jar × TwitterCookies),
      parseSafariPages data cursor sizes st = .ok st1 →
      st1.2.cookieHeader = st.2.cookieHeader := by
  intro sizes
  induction sizes with
  | nil =>
    intro cursor st st1 heq
    have : st = st1 := by simpa [parseSafariPages] using heq
    rw [this]
  | cons ps rest ih =>
    intro cursor st st1 heq
    rw [parseSafariPages] at heq
    by_cases h : cursor + ps > data.length
    · rw [if_pos h] at heq
      have : st = st1 := by simpa using heq
      rw [this]
    · rw [if_neg h] at heq
      cases hp : parseSafariCookiePage ((data.drop cursor).take ps) st with
      | error e => rw [hp] at heq; exact absurd heq (by simp)
      | ok stm =>
        rw [hp] at heq
        simp only [] at heq
        rw [ih (cursor + ps) stm st1 heq,
          pageHeaderPreserve ((data.drop cursor).take ps) st stm hp]

/-- The container parser never touches the cookie header. -/
theorem parseSafariHeaderPreserve (data : List Nat) (st st1 : Jar × TwitterCookies)
    (heq : parseSafariCookies data st = .ok st1) :
    st1.2.cookieHeader = st.2.cookieHeader := by
  unfold parseSafariCookies at heq
  by_cases h8 : data.length < 8
  · rw [if_pos h8] at heq
    have : st = st1 := by simpa using heq
    rw [this]
  · rw [if_neg h8] at heq
    by_cases hm : String.mk (utf8Decode (data.take 4)) ≠ "cook"
    · rw [if_pos hm] at heq
      have : st = st1 := by simpa using heq
      rw [this]
    · rw [if_neg hm] at heq
      cases hpc : readU32BE data 4 with
      | error e => rw [hpc] at heq; exact absurd heq (by simp)
      | ok pc =>
        rw [hpc] at heq
        simp only [] at heq
        cases hsz : readPageSizes data 8 pc with
        | error e => rw [hsz] at heq; exact absurd heq (by simp)
        | ok o =>
          rw [hsz] at heq
          cases o with
          | none =>
            have : st = st1 := by simpa using heq
            rw [this]
          | some sizes =>
            simp only [] at heq
            exact pagesHeaderPreserve data sizes (8 + 4 * pc) st st1 heq

/-! ## Sortedness of the serialized jar (claim C2) -/

/-- The code-point comparison is total. -/
theorem lexLeTotal : ∀ a b : List Char, lexLe a b = true ∨ lexLe b a = true := by
  intro a
  induction a with
  | nil => intro b; left; rfl
  | cons x xs ih =>
    intro b
    cases b with
    | nil => right; rfl
    | cons y ys =>
      by_cases h1 : x.toNat < y.toNat
      · left; rw [lexLe, if_pos h1]
      · by_cases h2 : y.toNat < x.toNat
        · right; rw [lexLe, if_pos h2]
        · rcases ih ys with h | h
          · left; rw [lexLe, if_neg h1, if_neg h2]; exact h
          · right; rw [lexLe, if_neg h2, if_neg h1]; exact h

/-- An empty right argument makes the comparison false for a non-empty
left argument. -/
theorem lexLeConsNilFalse (x : Char) (xs : List Char) : lexLe (x :: xs) [] = false := rfl

/-- The code-point comparison is transitive. -/
theorem lexLeTrans : ∀ a b c : List Char,
    lexLe a b = true → lexLe b c = true → lexLe a c = true := by
  intro a
  induction a with
  | nil => intro b c _ _; rfl
  | cons x xs ih =>
    intro b c hab hbc
    cases b with
    | nil => rw [lexLeConsNilFalse] at hab; exact absurd hab (by simp)
    | cons y ys =>
      cases c with
      | nil => rw [lexLeConsNilFalse] at hbc; exact absurd hbc (by simp)
      | cons z zs =>
        rw [lexLe] at hab hbc
        by_cases hxy : x.toNat < y.toNat
        · by_cases hyz : y.toNat < z.toNat
          · rw [lexLe, if_pos (by omega : x.toNat < z.toNat)]
          · by_cases hzy : z.toNat < y.toNat
            · rw [if_neg hyz, if_pos hzy] at hbc
              exact absurd hbc (by simp)
            · rw [lexLe, if_pos (by omega : x.toNat < z.toNat)]
        · by_cases hyx : y.toNat < x.toNat
          · rw [if_pos hyx] at hab
            rw [if_neg hxy] at hab
            exact absurd hab (by simp)
          · rw [if_neg hxy, if_neg hyx] at hab
            by_cases hyz : y.toNat < z.toNat
            · rw [lexLe, if_pos (by omega : x.toNat < z.toNat)]
            · by_cases hzy : z.toNat < y.toNat
              · rw [if_neg hyz, if_pos hzy] at hbc
                exact absurd hbc (by simp)
              · rw [if_neg hyz, if_neg hzy] at hbc
                rw [lexLe, if_neg (by omega : ¬ x.toNat < z.toNat),
                  if_neg (by omega : ¬ z.toNat < x.toNat)]
                exact ih ys zs hab hbc

/-- Membership after a stable insertion. -/
theorem insertByMem (le : α → α → Bool) (x : α) :
    ∀ (l : List α) (z : α), z ∈ insertBy le x l → z = x ∨ z ∈ l := by
  intro l
  induction l with
  | nil =>
    intro z hz
    rw [insertBy] at hz
    left
    simpa using hz
  | cons y ys ih =>
    intro z hz
    rw [insertBy] at hz
    by_cases hxy : le x y = true
    · rw [if_pos hxy] at hz
      rcases List.mem_cons.mp hz with rfl | hz
      · left; rfl
      · right; exact hz
    · rw [if_neg hxy] at hz
      rcases List.mem_cons.mp hz with rfl | hz
      · right; exact List.mem_cons_self _ _
      · rcases ih z hz with h | h
        · left; exact h
        · right; exact List.mem_cons_of_mem y h

/-- Stable insertion into a sorted list stays sorted, for a total and
transitive comparison. -/
theorem insertByPairwise (le : α → α → Bool)
    (htot : ∀ a b, le a b = true ∨ le b a = true)
    (htr : ∀ a b c, le a b = true → le b c = true → le a c = true) (x : α) :
    ∀ l : List α, l.Pairwise (fun a b => le a b = true) →
      (insertBy le x l).Pairwise (fun a b => le a b = true) := by
  intro l
  induction l with
  | nil => intro _; simp [insertBy]
  | cons y ys ih =>
    intro hp
    rw [List.pairwise_cons] at hp
    obtain ⟨hy, hys⟩ := hp
    rw [insertBy]
    by_cases hxy : le x y = true
    · rw [if_pos hxy, List.pairwise_cons]
      constructor
      · intro z hz
        rcases List.mem_cons.mp hz with rfl | hz
        · exact hxy
        · exact htr x y z hxy (hy z hz)
      · exact List.pairwise_cons.mpr ⟨hy, hys⟩
    · rw [if_neg hxy, List.pairwise_cons]
      constructor
      · intro z hz
        rcases insertByMem le x ys z hz with rfl | hz
        · rcases htot z y with h | h
          · exact absurd h hxy
          · exact h
        · exact hy z hz
      · exact ih hys

/-- The embedded stable sort sorts, for a total and transitive
comparison. -/
theorem sortByPairwise (le : α → α → Bool)
    (htot : ∀ a b, le a b = true ∨ le b a = true)
    (htr : ∀ a b c, le a b = true → le b c = true → le a c = true) :
    ∀ l : List α, (sortBy le l).Pairwise (fun a b => le a b = true) := by
  intro l
  induction l with
  | nil => simp [sortBy]
  | cons x xs ih => exact insertByPairwise le htot htr x (sortBy le xs) ih

/-- The entry list used by serializeCookieJar is sorted by cookie name. -/
theorem sortedJarEntriesPairwise (jar : Jar) :
    (sortedJarEntries jar).Pairwise (fun a b => lexLe a.1.data b.1.data = true) := by
  unfold sortedJarEntries
  exact sortByPairwise (fun a b : String × String => lexLe a.1.data b.1.data)
    (fun a b => lexLeTotal a.1.data b.1.data)
    (fun a b c => lexLeTrans a.1.data b.1.data c.1.data) _

/-- C2: the claim asserts cookieHeader is non-null only if both tokens are
non-null.  A Chrome store with a single legacy-encrypted cookie named foo
yields a non-null cookieHeader (the serialized jar) while both token
fields are null. -/
theorem c2_counterexample :
    (extractChromeFromLines (decryptCookieValue none (fun _ _ => none))
      ["foo|62617278"] none).cookieHeader = some "foo=barx" ∧
    (extractChromeFromLines (decryptCookieValue none (fun _ _ => none))
      ["foo|62617278"] none).authToken = none ∧
    (extractChromeFromLines (decryptCookieValue none (fun _ _ => none))
      ["foo|62617278"] none).ct0 = none := by
  refine ⟨by decide, by decide, by decide⟩

/-- C2 (amended): for every extractor, cookieHeader is non-null if and
only if the discovered jar is non-empty, and it is then the sorted
semicolon-joined serialization of the full jar; a populated token slot
implies a non-empty jar, so both tokens being non-null still implies a
non-null cookieHeader, but the converse fails (any non-empty jar sets the
header, claim C2 counterexample).  For resolveCredentials, on the paths
that do not adopt a browser result, cookieHeader is non-null exactly when
both tokens are populated.  The serialization order is sorted by cookie
name. -/
theorem c2_amended_theorem :
    (∀ (dec : String → Option String) (lines : List String) (profile : Option String),
      ((extractChromeFromLines dec lines profile).cookieHeader = none ↔
        (scanChromeLines dec lines).1 = []) ∧
      ((scanChromeLines dec lines).1 ≠ [] →
        (extractChromeFromLines dec lines profile).cookieHeader =
          some (serializeCookieJar (scanChromeLines dec lines).1)) ∧
      ((strTruthy (extractChromeFromLines dec lines profile).authToken ||
          strTruthy (extractChromeFromLines dec lines profile).ct0) = true →
        (extractChromeFromLines dec lines profile).cookieHeader ≠ none)) ∧
    (∀ (lines : List String) (profile : Option String),
      ((extractFirefoxFromLines lines profile).cookieHeader = none ↔
        (scanFirefoxLines lines).1 = []) ∧
      ((scanFirefoxLines lines).1 ≠ [] →
        (extractFirefoxFromLines lines profile).cookieHeader =
          some (serializeCookieJar (scanFirefoxLines lines).1)) ∧
      ((strTruthy (extractFirefoxFromLines lines profile).authToken ||
          strTruthy (extractFirefoxFromLines lines profile).ct0) = true →
        (extractFirefoxFromLines lines profile).cookieHeader ≠ none)) ∧
    (∀ (data : List Nat) (jar : Jar) (ck : TwitterCookies),
      parseSafariCookies data ([], emptyCookies) = .ok (jar, ck) →
      extractSafariFromData data = .ok (finalizeCookies "Safari" (jar, ck)) ∧
      ((finalizeCookies "Safari" (jar, ck)).cookieHeader = none ↔ jar = []) ∧
      (jar ≠ [] → (finalizeCookies "Safari" (jar, ck)).cookieHeader =
        some (serializeCookieJar jar))) ∧
    (∀ (env : String → Option String) (f : CookieSource → CookieExtractionResult)
        (opts : ResolveOptions),
      (∀ s ∈ sourcesToTry opts.cookieSource, hasBothTokens (f s).cookies = false) →
      ((resolveCredentials env f opts).cookies.cookieHeader ≠ none ↔
        hasBothTokens (resolveCredentials env f opts).cookies = true)) ∧
    (∀ jar : Jar, (sortedJarEntries jar).Pairwise
      (fun a b => lexLe a.1.data b.1.data = true)) := by
  refine ⟨?_, ?_, ?_, ?_, sortedJarEntriesPairwise⟩
  · intro dec lines profile
    have hscan : (scanChromeLines dec lines).2.cookieHeader = none := by
      unfold scanChromeLines
      rw [scanChromeHeaderPreserve]
      rfl
    have htok := finalizeTokensPreserve (chromeSourceLabel profile) (scanChromeLines dec lines)
    refine ⟨?_, ?_, ?_⟩
    · by_cases hj : (scanChromeLines dec lines).1 = []
      · rw [show extractChromeFromLines dec lines profile =
            finalizeCookies (chromeSourceLabel profile) (scanChromeLines dec lines) from rfl]
        rw [finalizeHeaderEmpty _ _ hj, hscan]
        simp [hj]
      · rw [show extractChromeFromLines dec lines profile =
            finalizeCookies (chromeSourceLabel profile) (scanChromeLines dec lines) from rfl]
        rw [finalizeHeaderNonempty _ _ hj]
        simp [hj]
    · intro hj
      rw [show extractChromeFromLines dec lines profile =
          finalizeCookies (chromeSourceLabel profile) (scanChromeLines dec lines) from rfl]
      exact finalizeHeaderNonempty _ _ hj
    · intro htr
      rw [show extractChromeFromLines dec lines profile =
          finalizeCookies (chromeSourceLabel profile) (scanChromeLines dec lines) from rfl] at htr ⊢
      rw [htok.1, htok.2] at htr
      have hj : (scanChromeLines dec lines).1 ≠ [] := by
        unfold scanChromeLines at htr ⊢
        exact scanChromeTokenJarInv dec lines ([], emptyCookies)
          (by intro h; simp [emptyCookies, strTruthy] at h) htr
      rw [finalizeHeaderNonempty _ _ hj]
      simp
  · intro lines profile
    have hscan : (scanFirefoxLines lines).2.cookieHeader = none := by
      unfold scanFirefoxLines
      rw [scanFirefoxHeaderPreserve]
      rfl
    have htok := finalizeTokensPreserve (firefoxSourceLabel profile) (scanFirefoxLines lines)
    refine ⟨?_, ?_, ?_⟩
    · by_cases hj : (scanFirefoxLines lines).1 = []
      · rw [show extractFirefoxFromLines lines profile =
            finalizeCookies (firefoxSourceLabel profile) (scanFirefoxLines lines) from rfl]
        rw [finalizeHeaderEmpty _ _ hj, hscan]
        simp [hj]
      · rw [show extractFirefoxFromLines lines profile =
            finalizeCookies (firefoxSourceLabel profile) (scanFirefoxLines lines) from rfl]
        rw [finalizeHeaderNonempty _ _ hj]
        simp [hj]
    · intro hj
      rw [show extractFirefoxFromLines lines profile =
          finalizeCookies (firefoxSourceLabel profile) (scanFirefoxLines lines) from rfl]
      exact finalizeHeaderNonempty _ _ hj
    · intro htr
      rw [show extractFirefoxFromLines lines profile =
          finalizeCookies (firefoxSourceLabel profile) (scanFirefoxLines lines) from rfl] at htr ⊢
      rw [htok.1, htok.2] at htr
      have hj : (scanFirefoxLines lines).1 ≠ [] := by
        unfold scanFirefoxLines at htr ⊢
        exact scanFirefoxTokenJarInv lines ([], emptyCookies)
          (by intro h; simp [emptyCookies, strTruthy] at h) htr
      rw [finalizeHeaderNonempty _ _ hj]
      simp
  · intro data jar ck hpar
    have hck : ck.cookieHeader = none := by
      have := parseSafariHeaderPreserve data ([], emptyCookies) (jar, ck) hpar
      simpa [emptyCookies] using this
    refine ⟨?_, ?_, ?_⟩
    · unfold extractSafariFromData
      rw [hpar]
    · by_cases hj : jar = []
      · rw [finalizeHeaderEmpty _ _ hj]
        simp [hck, hj]
      · rw [finalizeHeaderNonempty _ _ hj]
        simp [hj]
    · intro hj
      exact finalizeHeaderNonempty _ _ hj
  · intro env f opts hall
    by_cases hpre : hasBothTokens (preCascadeCookies env opts) = true
    · have hr : resolveCredentials env f opts =
          { cookies := { preCascadeCookies env opts with
              cookieHeader := some (composeArgHeader (preCascadeCookies env opts)) },
            warnings := [] } := by
        simp only [resolveCredentials]
        rw [if_pos hpre]
      rw [hr]
      simp only [ne_eq, Option.some_ne_none, not_false_iff, true_iff]
      exact hpre
    · have hpre2 : hasBothTokens (preCascadeCookies env opts) = false :=
        Bool.eq_false_iff.mpr hpre
      obtain ⟨ws, hws⟩ := cascadeAllIncomplete f _ hall
      have hform : (resolveCredentials env f opts).cookies = preCascadeCookies env opts := by
        simp only [resolveCredentials]
        rw [if_neg (by simp [hpre2]), hws]
        simp [hpre2]
      rw [hform, preCascadeHeaderNone]
      simp [hpre2]

/-- C2 witness: concrete instances of the amended invariant — a serialized
non-empty Chrome jar, an empty Firefox jar with null header, the empty
Safari container, and a resolver run with no complete source and a null
header. -/
theorem c2_amended_witness :
    (extractChromeFromLines (decryptCookieValue none (fun _ _ => none))
      ["foo|62617278"] none).cookieHeader =
      some (serializeCookieJar
        (scanChromeLines (decryptCookieValue none (fun _ _ => none)) ["foo|62617278"]).1) ∧
    (extractFirefoxFromLines [] none).cookieHeader = none ∧
    extractSafariFromData [] = .ok (finalizeCookies "Safari" ([], emptyCookies)) ∧
    (resolveCredentials (fun _ => none) (fun _ => ⟨emptyCookies, []⟩) {}).cookies.cookieHeader =
      none := by
  refine ⟨?_, ?_, ?_, ?_⟩
  · exact (c2_amended_theorem.1 (decryptCookieValue none (fun _ _ => none))
      ["foo|62617278"] none).2.1 (by decide)
  · exact (c2_amended_theorem.2.1 [] none).1.mpr rfl
  · exact (c2_amended_theorem.2.2.1 [] [] emptyCookies rfl).1
  · by_contra hne
    have hiff := c2_amended_theorem.2.2.2.1 (fun _ => none)
      (fun _ => ⟨emptyCookies, []⟩) {} (by decide)
    exact absurd (hiff.mp hne) (by decide)
